import Mathlib

/-
  Verification development for the transaction planner/executor in
  src/app/flatpak-transaction.c.

  The C code is shallowly embedded as follows:

  * `FlatpakTransactionOp` mirrors `struct FlatpakTransactionOp`
    (flatpak-transaction.c:33-41); `char **subpaths` becomes
    `Option (List String)` (`none` = NULL pointer meaning "inherit",
    `some []` = empty vector meaning "all subpaths", `some (x :: xs)` =
    explicit restriction), and `char *commit` becomes `Option String`.
  * `FlatpakTransaction` mirrors `struct FlatpakTransaction`
    (flatpak-transaction.c:43-52).  The `GHashTable *refs` and the
    `GList *ops` share the very same op objects and the table holds at
    most one op per ref, so both are represented by the single
    association list `ops : List (String × FlatpakTransactionOp)` kept in
    *prepend* order (`g_list_prepend`, flatpak-transaction.c:256); the
    hash-table lookup is `lookup_op` and an in-place mutation of a found
    op is `update_entry`.
  * All external collaborators (the FlatpakDir deploy store, the remote
    catalog, user prompts, the deploy engine) are a record of oracles,
    `World`.  The embedding never models their internal state; each call
    is a pure query of the corresponding field.
  * `GError **error` + `gboolean` returns become the record
    `AddRefResult` with separate `ok` (the C return value) and `err`
    (the out-parameter): flatpak_transaction_add_ref can return TRUE
    while leaving the error set (it ignores add_deps' result), and the
    embedding keeps the two channels separate to be faithful to that.
-/

inductive DeployErr where
  | alreadyInstalled : DeployErr
  | other : String → DeployErr
deriving DecidableEq

inductive FlatpakError where
  | notInstalled : String → FlatpakError
  | alreadyInstalled : String → FlatpakError
  | missingRuntime : String → String → FlatpakError
  | oneOrMoreOpsFailed : FlatpakError
  | deployFailed : String → DeployErr → FlatpakError
deriving DecidableEq

/- FlatpakRelated (flatpak-utils.h): the fields consumed by add_related
   (flatpak-transaction.c:315-324): ref, subpaths, download. -/
structure FlatpakRelated where
  ref : String
  subpaths : Option (List String)
  download : Bool
deriving DecidableEq

/- struct FlatpakTransactionOp, flatpak-transaction.c:33-41. -/
structure FlatpakTransactionOp where
  remote : String
  ref : String
  subpaths : Option (List String)
  commit : Option String
  update : Bool
  install : Bool
  non_fatal : Bool
deriving DecidableEq

/- struct FlatpakTransaction, flatpak-transaction.c:43-52 (dir lives in World). -/
structure FlatpakTransaction where
  ops : List (String × FlatpakTransactionOp)
  no_pull : Bool
  no_deploy : Bool
  add_deps : Bool
  add_related : Bool
deriving DecidableEq

/- Oracles for the external collaborators (deploy store, catalog, prompts,
   deploy engine).  `deployed` answers both flatpak_dir_get_if_deployed and
   flatpak_dir_get_deploy_data != NULL for the transaction's own dir;
   `origin` is flatpak_deploy_data_get_origin for a deployed ref;
   `sysDeployed` is get_if_deployed on the system dir (used by
   ref_is_installed when the dir is a user dir);
   `fetchRuntime remote ref` is the [Application] runtime= key obtained via
   flatpak_dir_fetch_ref_cache + GKeyFile parsing (none = any failure or
   missing key); `installResult`/`updateResult` are the outcomes of
   flatpak_dir_install / flatpak_dir_update (none = success). -/
structure World where
  deployed : String → Bool
  origin : String → String
  isUser : Bool
  sysDeployed : String → Bool
  remoteDisabled : String → Bool
  fetchRuntime : String → String → Option String
  searchForDependency : String → List String
  yesNoPrompt : String → Bool
  numberPrompt : List String → Nat
  findLocalRelated : String → String → Option (List FlatpakRelated)
  findRemoteRelated : String → String → Option (List FlatpakRelated)
  installResult : String → String → Option (List String) → Bool → Bool → Option DeployErr
  updateResult : String → String → Option String → Option (List String) → Bool → Bool →
    Option DeployErr

/- g_hash_table_lookup on the refs table (first entry with the given key). -/
def lookup_op : List (String × FlatpakTransactionOp) → String → Option FlatpakTransactionOp
  | [], _ => none
  | p :: ps, r => if p.1 = r then some p.2 else lookup_op ps r

/- In-place mutation of the op stored under key `r` (pointer sharing between
   the hash table and the ops list makes this a single update). -/
def update_entry (l : List (String × FlatpakTransactionOp)) (r : String)
    (f : FlatpakTransactionOp → FlatpakTransactionOp) : List (String × FlatpakTransactionOp) :=
  l.map (fun p => if p.1 = r then (p.1, f p.2) else p)

def op_keys (t : FlatpakTransaction) : List String := t.ops.map Prod.fst

/- strchr (ref, '/') + 1, flatpak-transaction.c:406/559: the tail of the ref
   after its first slash (the "pretty ref"). -/
def drop_through_slash : List Char → List Char
  | [] => []
  | c :: cs => if c = '/' then cs else drop_through_slash cs

def pref_of (ref : String) : String := String.mk (drop_through_slash ref.data)

/- g_str_has_prefix (ref, "app/"), flatpak-transaction.c:101. -/
def is_app_ref (ref : String) : Bool :=
  match ref.data with
  | 'a' :: 'p' :: 'p' :: '/' :: _ => true
  | _ => false

/- flatpak_transaction_new, flatpak-transaction.c:147-164. -/
def flatpak_transaction_new (no_pull no_deploy add_deps add_related : Bool) :
    FlatpakTransaction :=
  { ops := [], no_pull := no_pull, no_deploy := no_deploy,
    add_deps := add_deps, add_related := add_related }

/- The condition op->subpaths != NULL && op->subpaths[0] != NULL,
   flatpak-transaction.c:245. -/
def subpaths_restricted : Option (List String) → Bool
  | some (_ :: _) => true
  | _ => false

/- The merge performed on an existing op, flatpak-transaction.c:243-249:
   replace the stored subpaths only when they are a non-empty explicit list
   and the incoming subpaths pointer is non-NULL. -/
def op_merge_subpaths (subpaths : Option (List String)) (op : FlatpakTransactionOp) :
    FlatpakTransactionOp :=
  if subpaths_restricted op.subpaths && subpaths.isSome then { op with subpaths := subpaths }
  else op

/- flatpak_transaction_add_op, flatpak-transaction.c:211-259 (the g_debug
   output is not modelled). -/
def flatpak_transaction_add_op (t : FlatpakTransaction) (remote ref : String)
    (subpaths : Option (List String)) (commit : Option String) (install update : Bool) :
    FlatpakTransaction × FlatpakTransactionOp :=
  match lookup_op t.ops ref with
  | some op =>
      ({ t with ops := update_entry t.ops ref (op_merge_subpaths subpaths) },
       op_merge_subpaths subpaths op)
  | none =>
      let op : FlatpakTransactionOp :=
        { remote := remote, ref := ref, subpaths := subpaths, commit := commit,
          update := update, install := install, non_fatal := false }
      ({ t with ops := (ref, op) :: t.ops }, op)

/- flatpak_transaction_contains_ref, flatpak-transaction.c:175-184. -/
def flatpak_transaction_contains_ref (t : FlatpakTransaction) (ref : String) : Bool :=
  (lookup_op t.ops ref).isSome

/- op->non_fatal = TRUE on the op returned by add_op, flatpak-transaction.c:324. -/
def set_non_fatal (t : FlatpakTransaction) (ref : String) : FlatpakTransaction :=
  { t with ops := update_entry t.ops ref (fun op => { op with non_fatal := true }) }

/- ref_is_installed, flatpak-transaction.c:59-78: deployed in the dir, or in
   the system dir when the dir is a user dir. -/
def ref_is_installed (w : World) (ref : String) : Bool :=
  w.deployed ref || (w.isUser && w.sysDeployed ref)

/- dir_ref_is_installed, flatpak-transaction.c:80-92: deploy data in this
   dir only; the origin out-parameter is read off `w.origin`. -/
def dir_ref_is_installed (w : World) (ref : String) : Bool := w.deployed ref

/- transaction_fetch_runtime_ref, flatpak-transaction.c:94-114. -/
def transaction_fetch_runtime_ref (w : World) (remote ref : String) : Option String :=
  if is_app_ref ref then w.fetchRuntime remote ref else none

/- ask_for_remote, flatpak-transaction.c:261-287: yes/no prompt for a single
   remote, numbered prompt (0 = abort) otherwise. -/
def ask_for_remote (w : World) (remotes : List String) : Option String :=
  let chosen : Nat :=
    if remotes.length = 1 then (if w.yesNoPrompt (remotes.headD "") then 1 else 0)
    else w.numberPrompt remotes
  if chosen = 0 then none else remotes.get? (chosen - 1)

/- One iteration of the loop in add_related, flatpak-transaction.c:313-325. -/
def related_step (remote : String) (acc : FlatpakTransaction) (rel : FlatpakRelated) :
    FlatpakTransaction :=
  if rel.download then
    set_non_fatal (flatpak_transaction_add_op acc remote rel.ref rel.subpaths none true true).1
      rel.ref
  else acc

/- add_related, flatpak-transaction.c:289-329.  A failed lookup only prints a
   warning; the function always returns TRUE, so the result is just the new
   transaction state. -/
def add_related (w : World) (t : FlatpakTransaction) (remote ref : String) :
    FlatpakTransaction :=
  if t.add_related then
    match (if t.no_pull then w.findLocalRelated ref remote else w.findRemoteRelated ref remote)
      with
    | none => t
    | some rels => rels.foldl (related_step remote) t
  else t

/- add_deps, flatpak-transaction.c:331-392.  The second component is the
   GError out-parameter (some _ exactly when the C returns FALSE having
   called flatpak_fail). -/
def add_deps (w : World) (t : FlatpakTransaction) (remote ref : String) :
    FlatpakTransaction × Option FlatpakError :=
  match transaction_fetch_runtime_ref w remote ref with
  | none => (t, none)
  | some runtime_ref =>
    let full_runtime_ref := "runtime/" ++ runtime_ref
    if flatpak_transaction_contains_ref t full_runtime_ref then (t, none)
    else if ! ref_is_installed w full_runtime_ref then
      let remotes := w.searchForDependency full_runtime_ref
      let runtime_remote := if remotes.isEmpty then none else ask_for_remote w remotes
      match runtime_remote with
      | none => (t, some (FlatpakError.missingRuntime (pref_of ref) runtime_ref))
      | some rr =>
        let t1 := (flatpak_transaction_add_op t rr full_runtime_ref none none true true).1
        (add_related w t1 rr full_runtime_ref, none)
    else
      if dir_ref_is_installed w full_runtime_ref then
        let runtime_remote := w.origin full_runtime_ref
        let t1 :=
          (flatpak_transaction_add_op t runtime_remote full_runtime_ref none none false true).1
        (add_related w t1 runtime_remote full_runtime_ref, none)
      else (t, none)

/- The gboolean return value and the GError out-parameter of
   flatpak_transaction_add_ref, kept separate (see the header comment). -/
structure AddRefResult where
  t : FlatpakTransaction
  ok : Bool
  err : Option FlatpakError
deriving DecidableEq

/- The tail of flatpak_transaction_add_ref after the precondition checks,
   flatpak-transaction.c:435-443: the add_deps result is *ignored* (only the
   GError out-parameter survives), the op is recorded unconditionally, and
   add_related always succeeds, so the function returns TRUE. -/
def add_ref_common (w : World) (t : FlatpakTransaction) (remote ref : String)
    (subpaths : Option (List String)) (commit : Option String) (is_update : Bool) :
    AddRefResult :=
  let dep := if t.add_deps then add_deps w t remote ref else (t, none)
  let t2 := (flatpak_transaction_add_op dep.1 remote ref subpaths commit (!is_update)
    is_update).1
  { t := add_related w t2 remote ref, ok := true, err := dep.2 }

/- flatpak_transaction_add_ref, flatpak-transaction.c:394-444. -/
def flatpak_transaction_add_ref (w : World) (t : FlatpakTransaction) (remote : Option String)
    (ref : String) (subpaths : Option (List String)) (commit : Option String)
    (is_update : Bool) : AddRefResult :=
  if is_update then
    if ! dir_ref_is_installed w ref then
      { t := t, ok := false, err := some (FlatpakError.notInstalled (pref_of ref)) }
    else if w.remoteDisabled (w.origin ref) then
      { t := t, ok := true, err := none }
    else add_ref_common w t (w.origin ref) ref subpaths commit true
  else
    if dir_ref_is_installed w ref then
      { t := t, ok := false, err := some (FlatpakError.alreadyInstalled (pref_of ref)) }
    else add_ref_common w t (remote.getD "") ref subpaths commit false

/- flatpak_transaction_add_install, flatpak-transaction.c:446-460: a NULL
   subpaths argument is normalized to the empty vector ("all subpaths"). -/
def flatpak_transaction_add_install (w : World) (t : FlatpakTransaction) (remote ref : String)
    (subpaths : Option (List String)) : AddRefResult :=
  let subpaths := match subpaths with
    | none => some ([] : List String)
    | s => s
  flatpak_transaction_add_ref w t (some remote) ref subpaths none false

/- flatpak_transaction_add_update, flatpak-transaction.c:522-530: the caller's
   subpaths and commit are passed through unchanged; remote is NULL (it is
   resolved from the deploy origin inside add_ref). -/
def flatpak_transaction_add_update (w : World) (t : FlatpakTransaction) (ref : String)
    (subpaths : Option (List String)) (commit : Option String) : AddRefResult :=
  flatpak_transaction_add_ref w t none ref subpaths commit true

/- Flag resolution at the top of the executor loop,
   flatpak-transaction.c:551-557. -/
def resolve_op_flags (w : World) (op : FlatpakTransactionOp) : FlatpakTransactionOp :=
  if op.install && op.update then
    if dir_ref_is_installed w op.ref then { op with install := false }
    else { op with update := false }
  else op

/- The dispatch of one op to the deploy engine, flatpak-transaction.c:561-601,
   including the noop-update recovery (FLATPAK_ERROR_ALREADY_INSTALLED from
   flatpak_dir_update is turned into success, c.f. lines 594-600).
   none = success. -/
def run_op_res (w : World) (no_pull no_deploy : Bool) (op : FlatpakTransactionOp) :
    Option DeployErr :=
  if op.install then w.installResult op.ref op.remote op.subpaths no_pull no_deploy
  else
    match w.updateResult op.ref op.remote op.commit op.subpaths no_pull no_deploy with
    | some DeployErr.alreadyInstalled => none
    | r => r

/- The executor loop of flatpak_transaction_run, flatpak-transaction.c:543-626,
   as a fold over the (already reversed) op sequence, carrying `succeeded` and
   the GError out-parameter. -/
def run_go (w : World) (no_pull no_deploy stop_on_first_error : Bool) :
    List (String × FlatpakTransactionOp) → Bool → Option FlatpakError →
    Bool × Option FlatpakError
  | [], succeeded, e => (succeeded, e)
  | p :: rest, succeeded, e =>
    let op := resolve_op_flags w p.2
    match run_op_res w no_pull no_deploy op with
    | none => run_go w no_pull no_deploy stop_on_first_error rest succeeded e
    | some de =>
      if op.non_fatal then run_go w no_pull no_deploy stop_on_first_error rest succeeded e
      else if ! stop_on_first_error then
        if succeeded then
          run_go w no_pull no_deploy stop_on_first_error rest false
            (some FlatpakError.oneOrMoreOpsFailed)
        else run_go w no_pull no_deploy stop_on_first_error rest false e
      else (false, some (FlatpakError.deployFailed op.ref de))

/- flatpak_transaction_run, flatpak-transaction.c:532-629: reverse the
   prepend-ordered list (line 541) and walk it. -/
def flatpak_transaction_run (w : World) (t : FlatpakTransaction)
    (stop_on_first_error : Bool) : Bool × Option FlatpakError :=
  run_go w t.no_pull t.no_deploy stop_on_first_error t.ops.reverse true none

/- The order in which the executor visits refs (insertion order). -/
def executor_order (t : FlatpakTransaction) : List String := t.ops.reverse.map Prod.fst

/- Position of the first occurrence of a ref in a list of refs. -/
def idx_of (r : String) : List String → Nat
  | [] => 0
  | x :: xs => if x = r then 0 else idx_of r xs + 1

/- `{ t with ops := o }`, named so that "this function only rewrites the op
   table" facts compose by plain rewriting. -/
def with_ops (t : FlatpakTransaction) (o : List (String × FlatpakTransactionOp)) :
    FlatpakTransaction :=
  { t with ops := o }

/- One request of a sequence of flatpak_transaction_add_op calls on a fixed
   ref (used to state claim C2 about the subpath merge rules). -/
structure AddOpCall where
  remote : String
  subpaths : Option (List String)
  commit : Option String
  install : Bool
  update : Bool
deriving DecidableEq

/- Run a sequence of add_op calls, all mentioning the same ref. -/
def apply_calls (t : FlatpakTransaction) (ref : String) (cs : List AddOpCall) :
    FlatpakTransaction :=
  cs.foldl
    (fun acc c => (flatpak_transaction_add_op acc c.remote ref c.subpaths c.commit
      c.install c.update).1) t

/- Stated from the words of claim C2: "the subpaths of the most recent call
   that passed a restricted (non-empty explicit) list". -/
def most_recent_restricted : List AddOpCall → Option (List String)
  | [] => none
  | c :: cs =>
    match most_recent_restricted cs with
    | some v => some v
    | none =>
      match c.subpaths with
      | some (a :: l) => some (a :: l)
      | _ => none

/- Stated from the words of claim C2: the final subpaths are unrestricted
   (the empty list) if any call passed unrestricted subpaths, and otherwise
   the subpaths of the most recent restricted call. -/
def claimed_final_subpaths (cs : List AddOpCall) : Option (List String) :=
  if cs.any (fun c => c.subpaths == some ([] : List String)) then some []
  else most_recent_restricted cs

/- The effect of one incoming subpaths value on a stored subpaths value under
   the add_op merge rule (flatpak-transaction.c:245-249). -/
def sub_merge_step (s inc : Option (List String)) : Option (List String) :=
  if subpaths_restricted s && inc.isSome then inc else s

/- The last entry of a list of incoming subpaths values that is a non-NULL
   pointer. -/
def last_some_inc : List (Option (List String)) → Option (List String)
  | [] => none
  | i :: rest =>
    match last_some_inc rest with
    | some v => some v
    | none =>
      match i with
      | some l => some l
      | none => none

def any_inc_empty (incs : List (Option (List String))) : Bool :=
  incs.any (fun i => i == some ([] : List String))

/- Does this related candidate touch the op stored under key r in add_related's
   loop (flatpak-transaction.c:318-324)? -/
def rel_targets (r : String) (rel : FlatpakRelated) : Bool :=
  rel.download && (rel.ref == r)

/- The effect of one related candidate on the op stored under key r
   (add_op merge + the unconditional non_fatal write). -/
def op_rel_step (r : String) (o : FlatpakTransactionOp) (rel : FlatpakRelated) :
    FlatpakTransactionOp :=
  if rel_targets r rel then { op_merge_subpaths rel.subpaths o with non_fatal := true } else o

/- The incoming subpaths values of the related candidates that touch key r. -/
def rel_incs (r : String) (rels : List FlatpakRelated) : List (Option (List String)) :=
  rels.filterMap (fun rel => if rel_targets r rel then some rel.subpaths else none)

/- A base world for concrete scenarios: nothing deployed anywhere, no
   metadata, no related refs, every deploy-engine call succeeds. -/
def wBase : World :=
  { deployed := fun _ => false
    origin := fun _ => "origin"
    isUser := false
    sysDeployed := fun _ => false
    remoteDisabled := fun _ => false
    fetchRuntime := fun _ _ => none
    searchForDependency := fun _ => []
    yesNoPrompt := fun _ => false
    numberPrompt := fun _ => 0
    findLocalRelated := fun _ _ => some []
    findRemoteRelated := fun _ _ => some []
    installResult := fun _ _ _ _ _ => none
    updateResult := fun _ _ _ _ _ _ => none }

/- A fresh transaction with every option off. -/
def t_plain : FlatpakTransaction := flatpak_transaction_new false false false false

/- A fresh transaction with only add_deps enabled. -/
def t_deps : FlatpakTransaction := flatpak_transaction_new false false true false

/- World of spec scenario 3: app/X declares runtime Y, the runtime is not
   installed, three remotes offer it, the user aborts the selection. -/
def wAbort : World :=
  { wBase with
    fetchRuntime := fun _ r => if r == "app/X" then some "Y" else none
    searchForDependency := fun _ => ["a", "b", "c"] }

/- World of spec scenario 1: app/X declares runtime Y, one remote offers it,
   the user accepts. -/
def wAccept : World :=
  { wBase with
    fetchRuntime := fun _ r => if r == "app/X" then some "Y" else none
    searchForDependency := fun _ => ["origin"]
    yesNoPrompt := fun _ => true }

/- World where app/X is deployed only in the system scope while the
   transaction targets the user scope. -/
def wSysOnly : World :=
  { wBase with isUser := true, sysDeployed := fun r => r == "app/X" }

/- World where every ref is deployed (origin "origin", remotes enabled). -/
def wAllDeployed : World := { wBase with deployed := fun _ => true }

/- World where app/X is deployed and its origin remote is disabled. -/
def wDisabled : World :=
  { wBase with deployed := fun r => r == "app/X", remoteDisabled := fun _ => true }

/- World where app/X is deployed (origin "origin", remote enabled). -/
def wXDeployed : World := { wBase with deployed := fun r => r == "app/X" }

/- World where every install call fails with a deploy error. -/
def wFailInstall : World :=
  { wBase with installResult := fun _ _ _ _ _ => some (DeployErr.other "boom") }

/- A transaction holding a single non-fatal install op for app/X. -/
def tNonFatal : FlatpakTransaction :=
  { ops := [("app/X",
      { remote := "origin", ref := "app/X", subpaths := some [], commit := none,
        update := false, install := true, non_fatal := true })],
    no_pull := false, no_deploy := false, add_deps := false, add_related := false }

/- World whose related pass offers one downloadable related ref. -/
def wRelated : World :=
  { wBase with
    findRemoteRelated := fun _ _ =>
      some [{ ref := "runtime/X.Locale", subpaths := some ["en"], download := true }] }

/- A transaction with add_related enabled that already holds a *fatal* op for
   runtime/X.Locale recorded by a direct request. -/
def tFatalLocale : FlatpakTransaction :=
  { ops := [("runtime/X.Locale",
      { remote := "origin", ref := "runtime/X.Locale", subpaths := some [], commit := none,
        update := false, install := true, non_fatal := false })],
    no_pull := false, no_deploy := false, add_deps := false, add_related := true }

-- ## Basic properties of the op-table primitives

theorem lookup_update_self (r : String) (f : FlatpakTransactionOp → FlatpakTransactionOp) :
    ∀ l, lookup_op (update_entry l r f) r = (lookup_op l r).map f := by
  intro l
  induction l with
  | nil => rfl
  | cons p ps ih =>
    by_cases h : p.1 = r
    · simp [update_entry, lookup_op, h]
    · simp only [update_entry, List.map_cons] at ih ⊢
      simp [lookup_op, h, ih]

theorem lookup_update_ne (r x : String) (f : FlatpakTransactionOp → FlatpakTransactionOp)
    (h : x ≠ r) : ∀ l, lookup_op (update_entry l r f) x = lookup_op l x := by
  intro l
  induction l with
  | nil => rfl
  | cons p ps ih =>
    by_cases hp : p.1 = r
    · have hrx : ¬r = x := fun hc => h hc.symm
      simp only [update_entry, List.map_cons] at ih ⊢
      simp [lookup_op, hp, hrx, ih]
    · simp only [update_entry, List.map_cons] at ih ⊢
      simp only [if_neg hp, lookup_op]
      by_cases hx : p.1 = x
      · simp [hx]
      · simp [hx, ih]

theorem keys_update (r : String) (f : FlatpakTransactionOp → FlatpakTransactionOp) :
    ∀ l, (update_entry l r f).map Prod.fst = l.map Prod.fst := by
  intro l
  induction l with
  | nil => rfl
  | cons p ps ih =>
    by_cases h : p.1 = r <;>
      simp only [update_entry, List.map_cons] at ih ⊢ <;> simp [h, ih]

theorem lookup_isSome_iff_mem (r : String) :
    ∀ l : List (String × FlatpakTransactionOp),
      (lookup_op l r).isSome = true ↔ r ∈ l.map Prod.fst := by
  intro l
  induction l with
  | nil => simp [lookup_op]
  | cons p ps ih =>
    by_cases h : p.1 = r
    · simp [lookup_op, h]
    · simp only [lookup_op, if_neg h, List.map_cons, List.mem_cons]
      rw [ih]
      constructor
      · exact Or.inr
      · rintro (hc | hm)
        · exact absurd hc.symm h
        · exact hm

theorem contains_iff_mem (t : FlatpakTransaction) (r : String) :
    flatpak_transaction_contains_ref t r = true ↔ r ∈ op_keys t :=
  lookup_isSome_iff_mem r t.ops

-- ## Effects of flatpak_transaction_add_op

theorem add_op_with_ops (t : FlatpakTransaction) (rm rf : String)
    (sp : Option (List String)) (cm : Option String) (i u : Bool) :
    ∃ o, (flatpak_transaction_add_op t rm rf sp cm i u).1 = with_ops t o := by
  unfold flatpak_transaction_add_op
  cases lookup_op t.ops rf <;> exact ⟨_, rfl⟩

theorem add_op_lookup_merge (t : FlatpakTransaction) (rm rf : String)
    (sp : Option (List String)) (cm : Option String) (i u : Bool)
    (op : FlatpakTransactionOp) (h : lookup_op t.ops rf = some op) :
    lookup_op (flatpak_transaction_add_op t rm rf sp cm i u).1.ops rf =
      some (op_merge_subpaths sp op) := by
  simp [flatpak_transaction_add_op, h, lookup_update_self]

theorem add_op_lookup_fresh (t : FlatpakTransaction) (rm rf : String)
    (sp : Option (List String)) (cm : Option String) (i u : Bool)
    (h : lookup_op t.ops rf = none) :
    lookup_op (flatpak_transaction_add_op t rm rf sp cm i u).1.ops rf =
      some { remote := rm, ref := rf, subpaths := sp, commit := cm,
             update := u, install := i, non_fatal := false } := by
  simp [flatpak_transaction_add_op, h, lookup_op]

theorem add_op_lookup_ne (t : FlatpakTransaction) (rm rf x : String)
    (sp : Option (List String)) (cm : Option String) (i u : Bool) (h : x ≠ rf) :
    lookup_op (flatpak_transaction_add_op t rm rf sp cm i u).1.ops x =
      lookup_op t.ops x := by
  cases hl : lookup_op t.ops rf
  · have : rf ≠ x := fun hc => h hc.symm
    simp [flatpak_transaction_add_op, hl, lookup_op, this]
  · simp [flatpak_transaction_add_op, hl, lookup_update_ne rf x _ h]

theorem add_op_keys (t : FlatpakTransaction) (rm rf : String)
    (sp : Option (List String)) (cm : Option String) (i u : Bool) :
    op_keys (flatpak_transaction_add_op t rm rf sp cm i u).1 =
      if flatpak_transaction_contains_ref t rf then op_keys t else rf :: op_keys t := by
  cases hl : lookup_op t.ops rf <;>
    simp [flatpak_transaction_add_op, flatpak_transaction_contains_ref, hl, op_keys,
      keys_update]

theorem add_op_contains_self (t : FlatpakTransaction) (rm rf : String)
    (sp : Option (List String)) (cm : Option String) (i u : Bool) :
    flatpak_transaction_contains_ref (flatpak_transaction_add_op t rm rf sp cm i u).1 rf =
      true := by
  cases hl : lookup_op t.ops rf
  · simp [flatpak_transaction_contains_ref, add_op_lookup_fresh t rm rf sp cm i u hl]
  · simp [flatpak_transaction_contains_ref, add_op_lookup_merge t rm rf sp cm i u _ hl]

-- ## Effects of set_non_fatal

theorem set_nf_with_ops (t : FlatpakTransaction) (r : String) :
    ∃ o, set_non_fatal t r = with_ops t o := ⟨_, rfl⟩

theorem set_nf_keys (t : FlatpakTransaction) (r : String) :
    op_keys (set_non_fatal t r) = op_keys t := by
  simp [set_non_fatal, op_keys, keys_update]

theorem set_nf_lookup_self (t : FlatpakTransaction) (r : String) :
    lookup_op (set_non_fatal t r).ops r =
      (lookup_op t.ops r).map (fun op => { op with non_fatal := true }) := by
  simp [set_non_fatal, lookup_update_self]

theorem set_nf_lookup_ne (t : FlatpakTransaction) (r x : String) (h : x ≠ r) :
    lookup_op (set_non_fatal t r).ops x = lookup_op t.ops x := by
  simp [set_non_fatal, lookup_update_ne r x _ h]

-- ## with_ops composition facts

theorem with_ops_ops (t : FlatpakTransaction) (o : List (String × FlatpakTransactionOp)) :
    (with_ops t o).ops = o := rfl

theorem with_ops_trans (t : FlatpakTransaction) (o o' : List (String × FlatpakTransactionOp)) :
    with_ops (with_ops t o) o' = with_ops t o' := rfl

theorem with_ops_no_pull (t : FlatpakTransaction) (o : List (String × FlatpakTransactionOp)) :
    (with_ops t o).no_pull = t.no_pull := rfl

theorem with_ops_add_deps (t : FlatpakTransaction) (o : List (String × FlatpakTransactionOp)) :
    (with_ops t o).add_deps = t.add_deps := rfl

theorem with_ops_add_related (t : FlatpakTransaction)
    (o : List (String × FlatpakTransactionOp)) :
    (with_ops t o).add_related = t.add_related := rfl

theorem related_step_with_ops (rm : String) (acc : FlatpakTransaction) (rel : FlatpakRelated) :
    ∃ o, related_step rm acc rel = with_ops acc o := by
  unfold related_step
  by_cases h : rel.download
  · simp only [h, if_true]
    obtain ⟨o1, h1⟩ := add_op_with_ops acc rm rel.ref rel.subpaths none true true
    rw [h1]
    exact ⟨_, rfl⟩
  · simp only [h]
    exact ⟨acc.ops, rfl⟩

theorem rel_fold_with_ops (rm : String) :
    ∀ (rels : List FlatpakRelated) (t : FlatpakTransaction),
      ∃ o, rels.foldl (related_step rm) t = with_ops t o := by
  intro rels
  induction rels with
  | nil => exact fun t => ⟨t.ops, rfl⟩
  | cons rel rest ih =>
    intro t
    obtain ⟨o1, h1⟩ := related_step_with_ops rm t rel
    obtain ⟨o2, h2⟩ := ih (related_step rm t rel)
    exact ⟨o2, by rw [List.foldl_cons, h2, h1, with_ops_trans]⟩

theorem add_related_with_ops (w : World) (t : FlatpakTransaction) (rm rf : String) :
    ∃ o, add_related w t rm rf = with_ops t o := by
  unfold add_related
  by_cases h : t.add_related
  · simp only [h, if_true]
    cases (if t.no_pull then w.findLocalRelated rf rm else w.findRemoteRelated rf rm) with
    | none => exact ⟨t.ops, rfl⟩
    | some rels => exact rel_fold_with_ops rm rels t
  · simp only [h]
    exact ⟨t.ops, rfl⟩

theorem add_deps_with_ops (w : World) (t : FlatpakTransaction) (rm rf : String) :
    ∃ o, (add_deps w t rm rf).1 = with_ops t o := by
  unfold add_deps
  cases transaction_fetch_runtime_ref w rm rf with
  | none => exact ⟨t.ops, rfl⟩
  | some rt =>
    simp only
    by_cases h1 : flatpak_transaction_contains_ref t ("runtime/" ++ rt)
    · simp only [h1, if_true]
      exact ⟨t.ops, rfl⟩
    · simp only [h1, if_false, Bool.false_eq_true]
      by_cases h2 : ref_is_installed w ("runtime/" ++ rt)
      · simp only [h2, Bool.not_true, Bool.false_eq_true, if_false]
        by_cases h3 : dir_ref_is_installed w ("runtime/" ++ rt)
        · simp only [h3, if_true]
          obtain ⟨o1, ho1⟩ :=
            add_op_with_ops t (w.origin ("runtime/" ++ rt)) ("runtime/" ++ rt) none none
              false true
          obtain ⟨o2, ho2⟩ :=
            add_related_with_ops w
              (flatpak_transaction_add_op t (w.origin ("runtime/" ++ rt)) ("runtime/" ++ rt)
                none none false true).1
              (w.origin ("runtime/" ++ rt)) ("runtime/" ++ rt)
          exact ⟨o2, by rw [ho2, ho1, with_ops_trans]⟩
        · simp only [h3, if_false, Bool.false_eq_true]
          exact ⟨t.ops, rfl⟩
      · simp only [h2, Bool.not_false, if_true]
        cases hrr :
          (if (w.searchForDependency ("runtime/" ++ rt)).isEmpty then none
           else ask_for_remote w (w.searchForDependency ("runtime/" ++ rt))) with
        | none => exact ⟨t.ops, rfl⟩
        | some rr =>
          obtain ⟨o1, ho1⟩ := add_op_with_ops t rr ("runtime/" ++ rt) none none true true
          obtain ⟨o2, ho2⟩ :=
            add_related_with_ops w
              (flatpak_transaction_add_op t rr ("runtime/" ++ rt) none none true true).1 rr
              ("runtime/" ++ rt)
          exact ⟨o2, by dsimp only; rw [ho2, ho1, with_ops_trans]⟩

-- ## Keys of the op table only grow, by prepending

theorem related_step_keys (rm : String) (acc : FlatpakTransaction) (rel : FlatpakRelated) :
    ∃ n, op_keys (related_step rm acc rel) = n ++ op_keys acc := by
  unfold related_step
  by_cases h : rel.download
  · simp only [h, if_true]
    rw [set_nf_keys, add_op_keys]
    by_cases hc : flatpak_transaction_contains_ref acc rel.ref
    · exact ⟨[], by simp [hc]⟩
    · exact ⟨[rel.ref], by simp [hc]⟩
  · exact ⟨[], by simp [h]⟩

theorem rel_fold_keys (rm : String) :
    ∀ (rels : List FlatpakRelated) (t : FlatpakTransaction),
      ∃ n, op_keys (rels.foldl (related_step rm) t) = n ++ op_keys t := by
  intro rels
  induction rels with
  | nil => exact fun t => ⟨[], rfl⟩
  | cons rel rest ih =>
    intro t
    obtain ⟨n1, h1⟩ := related_step_keys rm t rel
    obtain ⟨n2, h2⟩ := ih (related_step rm t rel)
    exact ⟨n2 ++ n1, by rw [List.foldl_cons, h2, h1, List.append_assoc]⟩

theorem add_related_keys (w : World) (t : FlatpakTransaction) (rm rf : String) :
    ∃ n, op_keys (add_related w t rm rf) = n ++ op_keys t := by
  unfold add_related
  by_cases h : t.add_related
  · simp only [h, if_true]
    cases (if t.no_pull then w.findLocalRelated rf rm else w.findRemoteRelated rf rm) with
    | none => exact ⟨[], rfl⟩
    | some rels => exact rel_fold_keys rm rels t
  · exact ⟨[], by simp [h]⟩

theorem add_deps_keys (w : World) (t : FlatpakTransaction) (rm rf : String) :
    ∃ n, op_keys (add_deps w t rm rf).1 = n ++ op_keys t := by
  unfold add_deps
  cases transaction_fetch_runtime_ref w rm rf with
  | none => exact ⟨[], rfl⟩
  | some rt =>
    simp only
    by_cases h1 : flatpak_transaction_contains_ref t ("runtime/" ++ rt)
    · exact ⟨[], by simp [h1]⟩
    · simp only [h1, if_false, Bool.false_eq_true]
      by_cases h2 : ref_is_installed w ("runtime/" ++ rt)
      · simp only [h2, Bool.not_true, Bool.false_eq_true, if_false]
        by_cases h3 : dir_ref_is_installed w ("runtime/" ++ rt)
        · simp only [h3, if_true]
          obtain ⟨n2, h4⟩ :=
            add_related_keys w
              (flatpak_transaction_add_op t (w.origin ("runtime/" ++ rt)) ("runtime/" ++ rt)
                none none false true).1
              (w.origin ("runtime/" ++ rt)) ("runtime/" ++ rt)
          refine ⟨n2 ++ ["runtime/" ++ rt], ?_⟩
          rw [h4, add_op_keys]
          simp [h1, List.append_assoc]
        · simp only [h3, if_false, Bool.false_eq_true]
          exact ⟨[], rfl⟩
      · simp only [h2, Bool.not_false, if_true]
        cases hrr :
          (if (w.searchForDependency ("runtime/" ++ rt)).isEmpty then none
           else ask_for_remote w (w.searchForDependency ("runtime/" ++ rt))) with
        | none => exact ⟨[], rfl⟩
        | some rr =>
          obtain ⟨n2, h4⟩ :=
            add_related_keys w
              (flatpak_transaction_add_op t rr ("runtime/" ++ rt) none none true true).1 rr
              ("runtime/" ++ rt)
          refine ⟨n2 ++ ["runtime/" ++ rt], ?_⟩
          rw [h4, add_op_keys]
          simp [h1, List.append_assoc]

theorem contains_of_append_keys (t t' : FlatpakTransaction) (n : List String)
    (hk : op_keys t' = n ++ op_keys t) (x : String)
    (h : flatpak_transaction_contains_ref t x = true) :
    flatpak_transaction_contains_ref t' x = true := by
  rw [contains_iff_mem] at h ⊢
  rw [hk]
  exact List.mem_append_right n h

-- ## idx_of facts for the executor ordering

theorem idx_of_append_not_mem (a : String) :
    ∀ X Y : List String, a ∉ X → idx_of a (X ++ Y) = X.length + idx_of a Y := by
  intro X
  induction X with
  | nil => intro Y _; simp
  | cons x xs ih =>
    intro Y h
    have hx : ¬x = a := fun hc => h (hc ▸ List.mem_cons_self x xs)
    have hxs : a ∉ xs := fun hc => h (List.mem_cons_of_mem x hc)
    simp only [List.cons_append, idx_of, if_neg hx, List.length_cons, List.append_eq]
    rw [ih Y hxs]
    omega

theorem idx_of_append_mem (a : String) :
    ∀ X Y : List String, a ∈ X → idx_of a (X ++ Y) = idx_of a X := by
  intro X
  induction X with
  | nil => intro Y h; cases h
  | cons x xs ih =>
    intro Y h
    by_cases hx : x = a
    · simp [idx_of, hx]
    · have hxs : a ∈ xs := by
        cases List.mem_cons.mp h with
        | inl hc => exact absurd hc.symm hx
        | inr hm => exact hm
      simp [idx_of, hx, ih Y hxs]

theorem idx_of_lt_length (a : String) :
    ∀ X : List String, a ∈ X → idx_of a X < X.length := by
  intro X
  induction X with
  | nil => intro h; cases h
  | cons x xs ih =>
    intro h
    by_cases hx : x = a
    · simp [idx_of, hx]
    · have hxs : a ∈ xs := by
        cases List.mem_cons.mp h with
        | inl hc => exact absurd hc.symm hx
        | inr hm => exact hm
      simp only [idx_of, if_neg hx, List.length_cons]
      exact Nat.succ_lt_succ (ih hxs)

-- ## Executor lemmas

theorem resolve_op_flags_non_fatal (w : World) (op : FlatpakTransactionOp) :
    (resolve_op_flags w op).non_fatal = op.non_fatal := by
  unfold resolve_op_flags
  by_cases h : op.install && op.update
  · by_cases h2 : dir_ref_is_installed w op.ref <;> simp [h, h2]
  · simp [h]

theorem run_go_all_non_fatal (w : World) (np nd sofe : Bool) :
    ∀ l : List (String × FlatpakTransactionOp),
      (∀ p ∈ l, run_op_res w np nd (resolve_op_flags w p.2) ≠ none → p.2.non_fatal = true) →
      run_go w np nd sofe l true none = (true, none) := by
  intro l
  induction l with
  | nil => intro _; rfl
  | cons p rest ih =>
    intro h
    have hrest :
        ∀ q ∈ rest, run_op_res w np nd (resolve_op_flags w q.2) ≠ none →
          q.2.non_fatal = true :=
      fun q hq => h q (List.mem_cons_of_mem p hq)
    cases hres : run_op_res w np nd (resolve_op_flags w p.2) with
    | none => simp only [run_go, hres]; exact ih hrest
    | some de =>
      have hnf : p.2.non_fatal = true :=
        h p (List.mem_cons_self p rest) (by simp [hres])
      have hnf' : (resolve_op_flags w p.2).non_fatal = true := by
        rw [resolve_op_flags_non_fatal]; exact hnf
      simp only [run_go, hres, hnf', if_true]
      exact ih hrest

theorem lookup_eq_none_of_not_contains (t : FlatpakTransaction) (r : String)
    (h : flatpak_transaction_contains_ref t r = false) : lookup_op t.ops r = none := by
  unfold flatpak_transaction_contains_ref at h
  cases hl : lookup_op t.ops r
  · rfl
  · rw [hl] at h; simp at h

-- ## non_fatal is sticky across a related pass

theorem related_step_nf_preserved (rm : String) (acc : FlatpakTransaction)
    (rel : FlatpakRelated) (x : String) (op : FlatpakTransactionOp)
    (hl : lookup_op acc.ops x = some op) (hnf : op.non_fatal = true) :
    ∃ op', lookup_op (related_step rm acc rel).ops x = some op' ∧ op'.non_fatal = true := by
  unfold related_step
  by_cases hd : rel.download
  · simp only [hd, if_true]
    by_cases hx : x = rel.ref
    · subst hx
      refine ⟨{ op_merge_subpaths rel.subpaths op with non_fatal := true }, ?_, rfl⟩
      rw [set_nf_lookup_self,
        add_op_lookup_merge acc rm rel.ref rel.subpaths none true true op hl]
      rfl
    · rw [set_nf_lookup_ne _ _ _ hx, add_op_lookup_ne acc rm rel.ref x _ _ _ _ hx, hl]
      exact ⟨op, rfl, hnf⟩
  · simp only [hd, Bool.false_eq_true, if_false]
    exact ⟨op, hl, hnf⟩

theorem rel_fold_nf_preserved (rm : String) :
    ∀ (rels : List FlatpakRelated) (acc : FlatpakTransaction) (x : String)
      (op : FlatpakTransactionOp),
      lookup_op acc.ops x = some op → op.non_fatal = true →
      ∃ op', lookup_op (rels.foldl (related_step rm) acc).ops x = some op' ∧
        op'.non_fatal = true := by
  intro rels
  induction rels with
  | nil => exact fun acc x op hl hnf => ⟨op, hl, hnf⟩
  | cons rel rest ih =>
    intro acc x op hl hnf
    obtain ⟨op1, hl1, hnf1⟩ := related_step_nf_preserved rm acc rel x op hl hnf
    rw [List.foldl_cons]
    exact ih (related_step rm acc rel) x op1 hl1 hnf1

theorem related_step_sets_nf (rm : String) (acc : FlatpakTransaction) (rel : FlatpakRelated)
    (hdl : rel.download = true) :
    ∃ op', lookup_op (related_step rm acc rel).ops rel.ref = some op' ∧
      op'.non_fatal = true := by
  unfold related_step
  simp only [hdl, if_true]
  cases hl : lookup_op acc.ops rel.ref with
  | some op =>
    refine ⟨{ op_merge_subpaths rel.subpaths op with non_fatal := true }, ?_, rfl⟩
    rw [set_nf_lookup_self, add_op_lookup_merge acc rm rel.ref rel.subpaths none true true op hl]
    rfl
  | none =>
    refine ⟨{ remote := rm, ref := rel.ref, subpaths := rel.subpaths, commit := none,
              update := true, install := true, non_fatal := true }, ?_, rfl⟩
    rw [set_nf_lookup_self, add_op_lookup_fresh acc rm rel.ref rel.subpaths none true true hl]
    rfl

-- ## Claim C4

/-- C4: after the executor's flag-resolution step (flatpak-transaction.c:551-557)
exactly one of the op's install and update flags is true, and for ops that
entered the step with both flags set the surviving flag reflects the deploy
state queried at that moment: update survives iff the ref is currently
deployed in the transaction's scope.  The hypothesis is the claim's own
assumption that every recorded op has at least one of the two flags set. -/
theorem c4_flag_resolution (w : World) (op : FlatpakTransactionOp)
    (h : op.install = true ∨ op.update = true) :
    ((resolve_op_flags w op).install = !(resolve_op_flags w op).update) ∧
    (op.install = true → op.update = true →
      (resolve_op_flags w op).update = dir_ref_is_installed w op.ref) := by
  unfold resolve_op_flags
  cases hi : op.install <;> cases hu : op.update <;>
    cases hd : dir_ref_is_installed w op.ref <;> simp_all

theorem c4_flag_resolution_witness :
    ((resolve_op_flags wAllDeployed
        { remote := "origin", ref := "app/X", subpaths := some [], commit := none,
          update := true, install := true, non_fatal := false }).install =
      !(resolve_op_flags wAllDeployed
        { remote := "origin", ref := "app/X", subpaths := some [], commit := none,
          update := true, install := true, non_fatal := false }).update) ∧
    (({ remote := "origin", ref := "app/X", subpaths := some [], commit := none,
        update := true, install := true, non_fatal := false } :
        FlatpakTransactionOp).install = true →
      ({ remote := "origin", ref := "app/X", subpaths := some [], commit := none,
         update := true, install := true, non_fatal := false } :
         FlatpakTransactionOp).update = true →
      (resolve_op_flags wAllDeployed
        { remote := "origin", ref := "app/X", subpaths := some [], commit := none,
          update := true, install := true, non_fatal := false }).update =
        dir_ref_is_installed wAllDeployed
          ({ remote := "origin", ref := "app/X", subpaths := some [], commit := none,
             update := true, install := true, non_fatal := false } :
             FlatpakTransactionOp).ref) :=
  c4_flag_resolution wAllDeployed
    { remote := "origin", ref := "app/X", subpaths := some [], commit := none,
      update := true, install := true, non_fatal := false } (Or.inl rfl)

-- ## Claim C5

/-- C5: add_update on a deployed ref whose origin remote is disabled returns
success, adds no op and raises no error (flatpak-transaction.c:417-421);
add_update on a ref that is not deployed fails with NotInstalled and also
leaves the op table unchanged (flatpak-transaction.c:410-415). -/
theorem c5_update_disabled_and_not_installed (w : World) (t : FlatpakTransaction)
    (ref : String) (sp : Option (List String)) (cm : Option String) :
    (w.deployed ref = true → w.remoteDisabled (w.origin ref) = true →
      flatpak_transaction_add_update w t ref sp cm =
        { t := t, ok := true, err := none }) ∧
    (w.deployed ref = false →
      flatpak_transaction_add_update w t ref sp cm =
        { t := t, ok := false, err := some (FlatpakError.notInstalled (pref_of ref)) }) := by
  constructor
  · intro h1 h2
    simp [flatpak_transaction_add_update, flatpak_transaction_add_ref,
      dir_ref_is_installed, h1, h2]
  · intro h1
    simp [flatpak_transaction_add_update, flatpak_transaction_add_ref,
      dir_ref_is_installed, h1]

theorem c5_witness :
    flatpak_transaction_add_update wDisabled t_plain "app/X" none none =
      { t := t_plain, ok := true, err := none } ∧
    flatpak_transaction_add_update wBase t_plain "app/X" none none =
      { t := t_plain, ok := false,
        err := some (FlatpakError.notInstalled (pref_of "app/X")) } :=
  ⟨(c5_update_disabled_and_not_installed wDisabled t_plain "app/X" none none).1
      (by decide) (by decide),
   (c5_update_disabled_and_not_installed wBase t_plain "app/X" none none).2 (by decide)⟩

-- ## Claim C7

/-- C7: if every op whose deploy-engine call fails during a run is marked
non_fatal, the run returns success and neither records nor propagates any
error (flatpak-transaction.c:603-609, 628). -/
theorem c7_non_fatal_isolation (w : World) (t : FlatpakTransaction) (sofe : Bool)
    (h : ∀ p ∈ t.ops,
      run_op_res w t.no_pull t.no_deploy (resolve_op_flags w p.2) ≠ none →
      p.2.non_fatal = true) :
    flatpak_transaction_run w t sofe = (true, none) := by
  unfold flatpak_transaction_run
  exact run_go_all_non_fatal w t.no_pull t.no_deploy sofe t.ops.reverse
    (fun p hp => h p (List.mem_reverse.mp hp))

theorem c7_witness :
    (∀ p ∈ tNonFatal.ops,
      run_op_res wFailInstall tNonFatal.no_pull tNonFatal.no_deploy
        (resolve_op_flags wFailInstall p.2) ≠ none → p.2.non_fatal = true) ∧
    flatpak_transaction_run wFailInstall tNonFatal false = (true, none) :=
  ⟨by decide, c7_non_fatal_isolation wFailInstall tNonFatal false (by decide)⟩

-- ## Claim C9

/-- C9: after a related-expansion pass every related candidate with
download = true has its op's non_fatal flag set (flatpak-transaction.c:318-324),
including when an op for that ref already existed in the table from an
earlier direct request: add_op returns the existing op and the pass sets its
non_fatal flag in place, so its later execution failure no longer fails the
transaction. -/
theorem c9_related_non_fatal (w : World) (t : FlatpakTransaction) (rm rf : String)
    (rels : List FlatpakRelated)
    (hflag : t.add_related = true)
    (hfind : (if t.no_pull then w.findLocalRelated rf rm else w.findRemoteRelated rf rm) =
      some rels)
    (rel : FlatpakRelated) (hmem : rel ∈ rels) (hdl : rel.download = true) :
    ∃ op, lookup_op (add_related w t rm rf).ops rel.ref = some op ∧
      op.non_fatal = true := by
  obtain ⟨s, s', rfl⟩ := List.append_of_mem hmem
  unfold add_related
  rw [hflag, if_pos rfl, hfind]
  dsimp only
  rw [List.foldl_append, List.foldl_cons]
  obtain ⟨op1, hl1, hnf1⟩ :=
    related_step_sets_nf rm (s.foldl (related_step rm) t) rel hdl
  exact rel_fold_nf_preserved rm s' _ rel.ref op1 hl1 hnf1

theorem c9_witness :
    ∃ op, lookup_op (add_related wRelated tFatalLocale "origin" "app/X").ops
        "runtime/X.Locale" = some op ∧ op.non_fatal = true :=
  c9_related_non_fatal wRelated tFatalLocale "origin" "app/X"
    [{ ref := "runtime/X.Locale", subpaths := some ["en"], download := true }]
    rfl rfl
    { ref := "runtime/X.Locale", subpaths := some ["en"], download := true }
    (List.mem_singleton.mpr rfl) rfl

-- ## Claim C10

/-- C10: add_update passes the caller's subpaths through unchanged — a NULL
subpaths argument is recorded as the absent/inherit value, not normalized —
while add_install normalizes NULL to the unrestricted empty list
(flatpak-transaction.c:455-457 versus 529).  Stated on a fresh ref with the
expansion passes disabled so that the recorded op is exactly the intake's. -/
theorem c10_subpaths_passthrough (w : World) (t : FlatpakTransaction) (rm ref : String)
    (sp : Option (List String)) (cm : Option String)
    (hdeps : t.add_deps = false) (hrel : t.add_related = false)
    (hfresh : flatpak_transaction_contains_ref t ref = false) :
    (w.deployed ref = true → w.remoteDisabled (w.origin ref) = false →
      lookup_op (flatpak_transaction_add_update w t ref sp cm).t.ops ref =
        some { remote := w.origin ref, ref := ref, subpaths := sp, commit := cm,
               update := true, install := false, non_fatal := false }) ∧
    (w.deployed ref = false →
      lookup_op (flatpak_transaction_add_install w t rm ref none).t.ops ref =
        some { remote := rm, ref := ref, subpaths := some [], commit := none,
               update := false, install := true, non_fatal := false }) := by
  have hnone : lookup_op t.ops ref = none := lookup_eq_none_of_not_contains t ref hfresh
  constructor
  · intro h1 h2
    simp [flatpak_transaction_add_update, flatpak_transaction_add_ref,
      dir_ref_is_installed, h1, h2, add_ref_common, hdeps,
      flatpak_transaction_add_op, hnone, add_related, hrel, lookup_op]
  · intro h1
    simp [flatpak_transaction_add_install, flatpak_transaction_add_ref,
      dir_ref_is_installed, h1, add_ref_common, hdeps,
      flatpak_transaction_add_op, hnone, add_related, hrel, lookup_op]

theorem c10_witness :
    lookup_op (flatpak_transaction_add_update wXDeployed t_plain "app/X" none none).t.ops
        "app/X" =
      some { remote := "origin", ref := "app/X", subpaths := none, commit := none,
             update := true, install := false, non_fatal := false } ∧
    lookup_op (flatpak_transaction_add_install wBase t_plain "origin" "app/X" none).t.ops
        "app/X" =
      some { remote := "origin", ref := "app/X", subpaths := some [], commit := none,
             update := false, install := true, non_fatal := false } :=
  ⟨(c10_subpaths_passthrough wXDeployed t_plain "origin" "app/X" none none
      rfl rfl rfl).1 (by decide) (by decide),
   (c10_subpaths_passthrough wBase t_plain "origin" "app/X" none none
      rfl rfl rfl).2 (by decide)⟩

-- ## The error channel of the dependency pass

theorem add_deps_err_shape (w : World) (t : FlatpakTransaction) (rm rf : String) :
    (add_deps w t rm rf).2 = none ∨
    ∃ a b, (add_deps w t rm rf).2 = some (FlatpakError.missingRuntime a b) := by
  unfold add_deps
  cases transaction_fetch_runtime_ref w rm rf with
  | none => exact Or.inl rfl
  | some rt =>
    dsimp only
    by_cases h1 : flatpak_transaction_contains_ref t ("runtime/" ++ rt)
    · simp [h1]
    · simp only [h1, Bool.false_eq_true, if_false]
      by_cases h2 : ref_is_installed w ("runtime/" ++ rt)
      · simp only [h2, Bool.not_true, Bool.false_eq_true, if_false]
        by_cases h3 : dir_ref_is_installed w ("runtime/" ++ rt)
        · simp [h3]
        · simp [h3]
      · simp only [h2, Bool.not_false, if_true]
        cases hrr :
          (if (w.searchForDependency ("runtime/" ++ rt)).isEmpty then none
           else ask_for_remote w (w.searchForDependency ("runtime/" ++ rt))) with
        | none => exact Or.inr ⟨pref_of rf, rt, rfl⟩
        | some rr => exact Or.inl rfl

theorem add_ref_common_err_and_contains (w : World) (t : FlatpakTransaction)
    (rm ref : String) (sp : Option (List String)) (cm : Option String) (isu : Bool) :
    ((add_ref_common w t rm ref sp cm isu).err = none ∨
      ∃ a b, (add_ref_common w t rm ref sp cm isu).err =
        some (FlatpakError.missingRuntime a b)) ∧
    flatpak_transaction_contains_ref (add_ref_common w t rm ref sp cm isu).t ref = true := by
  constructor
  · unfold add_ref_common
    by_cases h : t.add_deps
    · simp only [h, if_true]
      exact add_deps_err_shape w t rm ref
    · simp [h]
  · unfold add_ref_common
    dsimp only
    obtain ⟨n, hk⟩ :=
      add_related_keys w
        (flatpak_transaction_add_op (if t.add_deps then add_deps w t rm ref else (t, none)).1
          rm ref sp cm (!isu) isu).1 rm ref
    exact contains_of_append_keys _ _ n hk ref
      (add_op_contains_self _ rm ref sp cm (!isu) isu)

-- ## Claim C1

/-- C1: code behavior at the failing input of the claim.  With add_deps
enabled, the transaction fresh, app/X not deployed, its metadata declaring
runtime Y, the runtime absent, three remotes offering it and the user
aborting the selection (spec scenario 3), the dependency pass fails with the
MissingRuntime error — yet flatpak_transaction_add_install returns TRUE and
the op for app/X is recorded, because flatpak_transaction_add_ref ignores
add_deps' return value (flatpak-transaction.c:435-436).  The claim (and
spec.md §4.2.4/§8 scenario 3) requires the failure to propagate with no op
recorded; spec.md §9 identifies this code path as a bug with the spec as the
intent. -/
theorem c1_add_deps_failure_ignored :
    (flatpak_transaction_add_install wAbort t_deps "origin" "app/X" none).ok = true ∧
    (flatpak_transaction_add_install wAbort t_deps "origin" "app/X" none).err =
      some (FlatpakError.missingRuntime "X" "Y") ∧
    flatpak_transaction_contains_ref
      (flatpak_transaction_add_install wAbort t_deps "origin" "app/X" none).t "app/X" =
      true := by decide

-- ## Claim C3

/-- C3 counterexample: the transaction is user-scope and app/X is deployed
only in the system scope.  The scope-aware check (ref_is_installed,
flatpak-transaction.c:59-78) regards the ref as installed, so the claim
demands that add_install fail with AlreadyInstalled and record nothing; but
the intake precondition actually uses dir_ref_is_installed (current scope
only, flatpak-transaction.c:427), so the call succeeds, reports no error and
records the op — the claim is false at this input. -/
theorem c3_counterexample :
    ref_is_installed wSysOnly "app/X" = true ∧
    (flatpak_transaction_add_install wSysOnly t_plain "origin" "app/X" none).ok = true ∧
    (flatpak_transaction_add_install wSysOnly t_plain "origin" "app/X" none).err = none ∧
    flatpak_transaction_contains_ref
      (flatpak_transaction_add_install wSysOnly t_plain "origin" "app/X" none).t "app/X" =
      true := by decide

/-- C3 (amended): the already-installed precondition of add_install consults
only the current scope's deploy store.  add_install fails with
AlreadyInstalled — leaving the table untouched — exactly when the ref is
deployed in the transaction's own scope; when it is not so deployed (even if
deployed in the system scope under a user-scope transaction) the call never
yields AlreadyInstalled and an op for the ref is recorded.  The user-scope →
system-scope fallback of ref_is_installed is applied only to runtime
dependencies inside add_deps, not to the intake precondition. -/
theorem c3_already_installed_scope_amended (w : World) (t : FlatpakTransaction)
    (rm ref : String) (sp : Option (List String)) :
    (w.deployed ref = true →
      flatpak_transaction_add_install w t rm ref sp =
        { t := t, ok := false,
          err := some (FlatpakError.alreadyInstalled (pref_of ref)) }) ∧
    (w.deployed ref = false →
      (flatpak_transaction_add_install w t rm ref sp).err ≠
        some (FlatpakError.alreadyInstalled (pref_of ref)) ∧
      flatpak_transaction_contains_ref
        (flatpak_transaction_add_install w t rm ref sp).t ref = true) := by
  constructor
  · intro h1
    simp [flatpak_transaction_add_install, flatpak_transaction_add_ref,
      dir_ref_is_installed, h1]
  · intro h1
    have key : ∀ sp2 : Option (List String),
        (add_ref_common w t rm ref sp2 none false).err ≠
          some (FlatpakError.alreadyInstalled (pref_of ref)) ∧
        flatpak_transaction_contains_ref (add_ref_common w t rm ref sp2 none false).t ref =
          true := by
      intro sp2
      obtain ⟨herr, hcont⟩ := add_ref_common_err_and_contains w t rm ref sp2 none false
      refine ⟨?_, hcont⟩
      cases herr with
      | inl he => rw [he]; simp
      | inr he =>
        obtain ⟨a, b, hb⟩ := he
        rw [hb]
        simp
    cases sp with
    | none =>
      have hred : flatpak_transaction_add_install w t rm ref none =
          add_ref_common w t rm ref (some []) none false := by
        simp [flatpak_transaction_add_install, flatpak_transaction_add_ref,
          dir_ref_is_installed, h1]
      rw [hred]
      exact key (some [])
    | some s =>
      have hred : flatpak_transaction_add_install w t rm ref (some s) =
          add_ref_common w t rm ref (some s) none false := by
        simp [flatpak_transaction_add_install, flatpak_transaction_add_ref,
          dir_ref_is_installed, h1]
      rw [hred]
      exact key (some s)

theorem c3_amended_witness :
    flatpak_transaction_add_install wXDeployed t_plain "origin" "app/X" none =
      { t := t_plain, ok := false,
        err := some (FlatpakError.alreadyInstalled (pref_of "app/X")) } :=
  (c3_already_installed_scope_amended wXDeployed t_plain "origin" "app/X" none).1 (by decide)

-- ## The subpath merge rule as a fold

theorem apply_calls_lookup (ref : String) :
    ∀ (cs : List AddOpCall) (t : FlatpakTransaction) (o : FlatpakTransactionOp),
      lookup_op t.ops ref = some o →
      lookup_op (apply_calls t ref cs).ops ref =
        some (cs.foldl (fun acc c => op_merge_subpaths c.subpaths acc) o) := by
  intro cs
  induction cs with
  | nil => exact fun t o h => h
  | cons c rest ih =>
    intro t o h
    have h1 := add_op_lookup_merge t c.remote ref c.subpaths c.commit c.install c.update o h
    simp only [apply_calls, List.foldl_cons] at ih ⊢
    exact ih _ _ h1

theorem call_fold_subpaths :
    ∀ (cs : List AddOpCall) (o : FlatpakTransactionOp),
      (cs.foldl (fun acc c => op_merge_subpaths c.subpaths acc) o).subpaths =
        (cs.map (fun c => c.subpaths)).foldl sub_merge_step o.subpaths := by
  intro cs
  induction cs with
  | nil => intro o; rfl
  | cons c rest ih =>
    intro o
    simp only [List.foldl_cons, List.map_cons]
    rw [ih]
    congr 1
    unfold op_merge_subpaths sub_merge_step
    by_cases h : subpaths_restricted o.subpaths && c.subpaths.isSome <;> simp [h]

theorem sub_fold_frozen :
    ∀ (incs : List (Option (List String))) (s : Option (List String)),
      subpaths_restricted s = false → incs.foldl sub_merge_step s = s := by
  intro incs
  induction incs with
  | nil => intro s _; rfl
  | cons i rest ih =>
    intro s h
    simp only [List.foldl_cons, sub_merge_step, h, Bool.false_and, Bool.false_eq_true,
      if_false]
    exact ih s h

theorem sub_fold_restricted :
    ∀ (incs : List (Option (List String))) (s : Option (List String)),
      subpaths_restricted s = true →
      incs.foldl sub_merge_step s =
        (if any_inc_empty incs then some []
         else
           match last_some_inc incs with
           | some v => some v
           | none => s) := by
  intro incs
  induction incs with
  | nil => intro s _; simp [any_inc_empty, last_some_inc]
  | cons i rest ih =>
    intro s h
    cases i with
    | none =>
      simp only [List.foldl_cons, sub_merge_step, Option.isSome_none, Bool.and_false,
        Bool.false_eq_true, if_false]
      rw [ih s h]
      simp only [any_inc_empty, List.any_cons, last_some_inc]
      cases last_some_inc rest <;> simp
    | some l =>
      cases l with
      | nil =>
        simp only [List.foldl_cons, sub_merge_step, h, Option.isSome_some, Bool.and_true,
          if_true]
        rw [sub_fold_frozen rest (some []) rfl]
        simp [any_inc_empty]
      | cons a as =>
        simp only [List.foldl_cons, sub_merge_step, h, Option.isSome_some, Bool.and_true,
          if_true]
        rw [ih (some (a :: as)) rfl]
        have hne : ((some (a :: as) : Option (List String)) ==
            some ([] : List String)) = false := rfl
        simp only [any_inc_empty, List.any_cons, hne, Bool.false_or, last_some_inc]
        by_cases ha : (rest.any fun i => i == some ([] : List String)) = true
        · simp [any_inc_empty, ha]
        · simp only [any_inc_empty] at ha ⊢
          simp only [Bool.not_eq_true] at ha
          simp only [ha, Bool.false_eq_true, if_false]
          cases last_some_inc rest <;> simp

theorem last_some_inc_restricted :
    ∀ incs : List (Option (List String)), any_inc_empty incs = false →
      ∀ v, last_some_inc incs = some v → subpaths_restricted (some v) = true := by
  intro incs
  induction incs with
  | nil => intro _ v h; cases h
  | cons i rest ih =>
    intro hany v hlast
    have hsplit : (i == some ([] : List String)) = false ∧
        any_inc_empty rest = false := by
      simp only [any_inc_empty, List.any_cons, Bool.or_eq_false_iff] at hany
      exact ⟨hany.1, hany.2⟩
    simp only [last_some_inc] at hlast
    cases hlr : last_some_inc rest with
    | some v' =>
      rw [hlr] at hlast
      dsimp only at hlast
      exact hlast ▸ ih hsplit.2 v' hlr
    | none =>
      rw [hlr] at hlast
      dsimp only at hlast
      cases i with
      | none => exact absurd hlast (by simp)
      | some l =>
        cases l with
        | nil => exact absurd hsplit.1 (by decide)
        | cons a as =>
          dsimp only at hlast
          have hv : a :: as = v := by injection hlast
          rw [← hv]
          rfl

theorem sub_fold_merge_idem (incs : List (Option (List String))) (sp : Option (List String))
    (hsp : sp.isSome = true) (u : Option (List String))
    (hu : u = sp ∨ subpaths_restricted u = false) :
    incs.foldl sub_merge_step (sub_merge_step (incs.foldl sub_merge_step u) sp) =
      incs.foldl sub_merge_step u := by
  have step_self : sub_merge_step sp sp = sp := by
    unfold sub_merge_step; split <;> rfl
  cases hu with
  | inr hfrozen =>
    rw [sub_fold_frozen incs u hfrozen]
    rw [show sub_merge_step u sp = u by simp [sub_merge_step, hfrozen]]
    exact sub_fold_frozen incs u hfrozen
  | inl hequ =>
    subst hequ
    by_cases hr : subpaths_restricted u
    · rw [sub_fold_restricted incs u hr]
      by_cases ha : any_inc_empty incs
      · simp only [ha, if_true]
        rw [show sub_merge_step (some []) u = some [] by
          simp [sub_merge_step, subpaths_restricted]]
        rw [sub_fold_frozen incs (some []) rfl]
      · simp only [ha, Bool.false_eq_true, if_false]
        cases hl : last_some_inc incs with
        | some v =>
          have ha' : any_inc_empty incs = false := by simpa using ha
          have hv : subpaths_restricted (some v) = true :=
            last_some_inc_restricted incs ha' v hl
          rw [show sub_merge_step (some v) u = u by simp [sub_merge_step, hv, hsp]]
          rw [sub_fold_restricted incs u hr]
          simp [ha, hl]
        | none =>
          rw [step_self, sub_fold_restricted incs u hr]
          simp [ha, hl]
    · have hr' : subpaths_restricted u = false := by simpa using hr
      rw [sub_fold_frozen incs u hr', step_self]
      exact sub_fold_frozen incs u hr'

-- ## Claim C2

theorem any_inc_empty_map (cs : List AddOpCall) :
    any_inc_empty (cs.map (fun c => c.subpaths)) =
      cs.any (fun c => c.subpaths == some ([] : List String)) := by
  induction cs with
  | nil => rfl
  | cons c rest ih =>
    simp only [List.map_cons, any_inc_empty, List.any_cons] at ih ⊢
    rw [ih]

theorem mrr_eq_last_some_inc :
    ∀ cs : List AddOpCall,
      cs.any (fun c => c.subpaths == some ([] : List String)) = false →
      most_recent_restricted cs = last_some_inc (cs.map (fun c => c.subpaths)) := by
  intro cs
  induction cs with
  | nil => intro _; rfl
  | cons c rest ih =>
    intro h
    have hsplit : (c.subpaths == some ([] : List String)) = false ∧
        rest.any (fun c => c.subpaths == some ([] : List String)) = false := by
      simp only [List.any_cons, Bool.or_eq_false_iff] at h
      exact ⟨h.1, h.2⟩
    simp only [most_recent_restricted, List.map_cons, last_some_inc, ih hsplit.2]
    cases last_some_inc (rest.map (fun c => c.subpaths)) with
    | some v => rfl
    | none =>
      cases hc : c.subpaths with
      | none => rfl
      | some l =>
        cases l with
        | nil => rw [hc] at hsplit; cases hsplit.1
        | cons a as => rfl

/-- C2 counterexample: two add_op calls on the same fresh ref, the first with
NULL subpaths, the second with the restricted list [p].  The merge condition
(flatpak-transaction.c:245) requires the stored subpaths to be a non-empty
list, so the NULL stored by the first call is never overwritten: the final
subpaths are NULL (inherit), not the [p] that the claim ("otherwise the
subpaths of the most recent restricted call") predicts. -/
theorem c2_counterexample :
    (lookup_op (apply_calls t_plain "app/X"
        [{ remote := "r", subpaths := none, commit := none, install := true,
           update := false },
         { remote := "r", subpaths := some ["p"], commit := none, install := true,
           update := false }]).ops "app/X").map (fun op => op.subpaths) ≠
      some (claimed_final_subpaths
        [{ remote := "r", subpaths := none, commit := none, install := true,
           update := false },
         { remote := "r", subpaths := some ["p"], commit := none, install := true,
           update := false }]) := by decide

/-- C2 (amended): for a sequence of add_op calls mentioning the same ref,
*provided the first call passes non-NULL subpaths* (as every add_install
does after its normalization), the op's final subpaths are unrestricted
(the empty list) if any call passed unrestricted subpaths, and otherwise
equal the subpaths of the most recent call that passed a restricted
(non-empty explicit) list.  An op created with NULL (inherit) subpaths keeps
them forever, which is the only deviation from the claim as stated. -/
theorem c2_subpath_monotonicity_amended (t : FlatpakTransaction) (ref : String)
    (c0 : AddOpCall) (cs : List AddOpCall)
    (hfresh : flatpak_transaction_contains_ref t ref = false)
    (l0 : List String) (h0 : c0.subpaths = some l0) :
    (lookup_op (apply_calls t ref (c0 :: cs)).ops ref).map (fun op => op.subpaths) =
      some (claimed_final_subpaths (c0 :: cs)) := by
  have hnone := lookup_eq_none_of_not_contains t ref hfresh
  have ht1 :=
    add_op_lookup_fresh t c0.remote ref c0.subpaths c0.commit c0.install c0.update hnone
  have h2 := apply_calls_lookup ref cs
    (flatpak_transaction_add_op t c0.remote ref c0.subpaths c0.commit c0.install
      c0.update).1 _ ht1
  have hred : apply_calls t ref (c0 :: cs) =
      apply_calls
        (flatpak_transaction_add_op t c0.remote ref c0.subpaths c0.commit c0.install
          c0.update).1 ref cs := by
    simp only [apply_calls, List.foldl_cons]
  rw [hred, h2]
  simp only [Option.map_some']
  rw [call_fold_subpaths]
  simp only [h0]
  cases l0 with
  | nil =>
    rw [sub_fold_frozen (cs.map fun c => c.subpaths) (some []) rfl]
    have hany : (c0 :: cs).any (fun c => c.subpaths == some ([] : List String)) = true := by
      simp [List.any_cons, h0]
    simp [claimed_final_subpaths, hany]
  | cons a as =>
    rw [sub_fold_restricted (cs.map fun c => c.subpaths) (some (a :: as)) rfl]
    have hne : ((some (a :: as) : Option (List String)) ==
        some ([] : List String)) = false := rfl
    unfold claimed_final_subpaths
    simp only [List.any_cons, h0, hne, Bool.false_or, most_recent_restricted,
      any_inc_empty_map]
    by_cases ha : (cs.any fun c => c.subpaths == some ([] : List String)) = true
    · simp [ha]
    · simp only [Bool.not_eq_true] at ha
      simp only [ha, Bool.false_eq_true, if_false]
      rw [mrr_eq_last_some_inc cs ha]

theorem c2_amended_witness :
    (lookup_op (apply_calls t_plain "app/X"
        [{ remote := "r", subpaths := some ["p"], commit := none, install := true,
           update := false },
         { remote := "r", subpaths := some ["q"], commit := none, install := true,
           update := false }]).ops "app/X").map (fun op => op.subpaths) =
      some (claimed_final_subpaths
        [{ remote := "r", subpaths := some ["p"], commit := none, install := true,
           update := false },
         { remote := "r", subpaths := some ["q"], commit := none, install := true,
           update := false }]) :=
  c2_subpath_monotonicity_amended t_plain "app/X"
    { remote := "r", subpaths := some ["p"], commit := none, install := true,
      update := false }
    [{ remote := "r", subpaths := some ["q"], commit := none, install := true,
       update := false }]
    rfl ["p"] rfl

-- ## Claim C6

theorem executor_order_eq (t : FlatpakTransaction) :
    executor_order t = (op_keys t).reverse := by
  unfold executor_order op_keys
  rw [List.map_reverse]

theorem not_mem_keys_of_not_contains (t : FlatpakTransaction) (r : String)
    (h : flatpak_transaction_contains_ref t r = false) : r ∉ op_keys t := by
  intro hc
  have hm := (contains_iff_mem t r).mpr hc
  rw [hm] at h
  exact absurd h (by decide)

/-- C6: any op O added to the table by the dependency pass that runs while an
op O' for the requested ref is being recorded precedes O' in the order the
executor traverses the ops.  The ops list is built by prepending
(flatpak-transaction.c:256) and reversed at the start of run (line 541), so
the executor visits refs in insertion order (executor_order), and the
dependency pass (line 435-436) runs before the requested op is appended
(line 438).  The hypotheses express the claim's situation: the requested ref
is not yet in the table, the dependency pass does not itself insert the
requested ref (so O' really is appended by this call), and the ref rr *is*
inserted by the dependency pass. -/
theorem c6_dependency_ordering (w : World) (t : FlatpakTransaction) (rm ref : String)
    (sp : Option (List String)) (cm : Option String) (isu : Bool) (rr : String)
    (h0 : flatpak_transaction_contains_ref t ref = false)
    (h1 : flatpak_transaction_contains_ref
      (if t.add_deps then add_deps w t rm ref else (t, none)).1 ref = false)
    (h2 : flatpak_transaction_contains_ref t rr = false)
    (h3 : flatpak_transaction_contains_ref
      (if t.add_deps then add_deps w t rm ref else (t, none)).1 rr = true) :
    idx_of rr (executor_order (add_ref_common w t rm ref sp cm isu).t) <
      idx_of ref (executor_order (add_ref_common w t rm ref sp cm isu).t) := by
  have hres : (add_ref_common w t rm ref sp cm isu).t =
      add_related w
        (flatpak_transaction_add_op
          (if t.add_deps then add_deps w t rm ref else (t, none)).1 rm ref sp cm (!isu)
          isu).1 rm ref := rfl
  obtain ⟨l1, hk1⟩ :
      ∃ n, op_keys (if t.add_deps then add_deps w t rm ref else (t, none)).1 =
        n ++ op_keys t := by
    by_cases h : t.add_deps = true
    · rw [if_pos h]
      exact add_deps_keys w t rm ref
    · rw [if_neg h]
      exact ⟨[], rfl⟩
  have hk2 : op_keys (flatpak_transaction_add_op
      (if t.add_deps then add_deps w t rm ref else (t, none)).1 rm ref sp cm (!isu) isu).1 =
      ref :: op_keys (if t.add_deps then add_deps w t rm ref else (t, none)).1 := by
    rw [add_op_keys]
    simp [h1]
  obtain ⟨l2, hk3⟩ :=
    add_related_keys w
      (flatpak_transaction_add_op
        (if t.add_deps then add_deps w t rm ref else (t, none)).1 rm ref sp cm (!isu)
        isu).1 rm ref
  have hrr_in_t1 : rr ∈ op_keys (if t.add_deps then add_deps w t rm ref else (t, none)).1 :=
    (contains_iff_mem _ rr).mp h3
  have hrr_notin_t : rr ∉ op_keys t := not_mem_keys_of_not_contains t rr h2
  have hrr_l1 : rr ∈ l1 := by
    rw [hk1] at hrr_in_t1
    cases List.mem_append.mp hrr_in_t1 with
    | inl h => exact h
    | inr h => exact absurd h hrr_notin_t
  have href_notin_t : ref ∉ op_keys t := not_mem_keys_of_not_contains t ref h0
  have href_notin_l1 : ref ∉ l1 := by
    intro hc
    have hm : ref ∈ op_keys (if t.add_deps then add_deps w t rm ref else (t, none)).1 := by
      rw [hk1]
      exact List.mem_append_left _ hc
    exact not_mem_keys_of_not_contains _ ref h1 hm
  have hfinal : op_keys (add_ref_common w t rm ref sp cm isu).t =
      l2 ++ ref :: (l1 ++ op_keys t) := by
    rw [hres, hk3, hk2, hk1]
  rw [executor_order_eq, hfinal]
  simp only [List.reverse_append, List.reverse_cons, List.append_assoc]
  have hrr_not_rev : rr ∉ (op_keys t).reverse :=
    fun hc => hrr_notin_t (List.mem_reverse.mp hc)
  have href_not_rev : ref ∉ (op_keys t).reverse :=
    fun hc => href_notin_t (List.mem_reverse.mp hc)
  have hrr_rev_l1 : rr ∈ l1.reverse := List.mem_reverse.mpr hrr_l1
  have href_not_l1rev : ref ∉ l1.reverse :=
    fun hc => href_notin_l1 (List.mem_reverse.mp hc)
  rw [idx_of_append_not_mem rr _ _ hrr_not_rev,
    idx_of_append_not_mem ref _ _ href_not_rev,
    idx_of_append_mem rr _ _ hrr_rev_l1,
    idx_of_append_not_mem ref _ _ href_not_l1rev]
  have h7 : idx_of ref ([ref] ++ l2.reverse) = 0 := by simp [idx_of]
  have h8 : idx_of rr l1.reverse < l1.reverse.length := idx_of_lt_length rr _ hrr_rev_l1
  rw [h7]
  omega

theorem c6_witness :
    idx_of "runtime/Y" (executor_order
      (add_ref_common wAccept t_deps "origin" "app/X" (some []) none false).t) <
    idx_of "app/X" (executor_order
      (add_ref_common wAccept t_deps "origin" "app/X" (some []) none false).t) :=
  c6_dependency_ordering wAccept t_deps "origin" "app/X" (some []) none false "runtime/Y"
    (by decide) (by decide) (by decide) (by decide)

-- ## Claim C8: infrastructure

theorem op_merge_fields (s : Option (List String)) (o : FlatpakTransactionOp) :
    (op_merge_subpaths s o).remote = o.remote ∧
    (op_merge_subpaths s o).ref = o.ref ∧
    (op_merge_subpaths s o).commit = o.commit ∧
    (op_merge_subpaths s o).install = o.install ∧
    (op_merge_subpaths s o).update = o.update ∧
    (op_merge_subpaths s o).non_fatal = o.non_fatal := by
  unfold op_merge_subpaths
  by_cases h : (subpaths_restricted o.subpaths && s.isSome) = true
  · rw [if_pos h]
    exact ⟨rfl, rfl, rfl, rfl, rfl, rfl⟩
  · rw [if_neg h]
    exact ⟨rfl, rfl, rfl, rfl, rfl, rfl⟩

theorem op_merge_subpaths_subpaths (s : Option (List String)) (o : FlatpakTransactionOp) :
    (op_merge_subpaths s o).subpaths = sub_merge_step o.subpaths s := by
  unfold op_merge_subpaths sub_merge_step
  by_cases h : (subpaths_restricted o.subpaths && s.isSome) = true
  · rw [if_pos h, if_pos h]
  · rw [if_neg h, if_neg h]

theorem op_with_subpaths_self (o : FlatpakTransactionOp) (s : Option (List String))
    (h : o.subpaths = s) : { o with subpaths := s } = o := by
  cases o
  cases h
  rfl

theorem op_eq_of_fields (o1 o2 : FlatpakTransactionOp)
    (h1 : o1.remote = o2.remote) (h2 : o1.ref = o2.ref) (h3 : o1.subpaths = o2.subpaths)
    (h4 : o1.commit = o2.commit) (h5 : o1.update = o2.update) (h6 : o1.install = o2.install)
    (h7 : o1.non_fatal = o2.non_fatal) : o1 = o2 := by
  cases o1
  cases o2
  simp only at h1 h2 h3 h4 h5 h6 h7
  subst h1 h2 h3 h4 h5 h6 h7
  rfl

theorem rel_fold_lookup_some (rm r : String) :
    ∀ (rels : List FlatpakRelated) (t : FlatpakTransaction) (o : FlatpakTransactionOp),
      lookup_op t.ops r = some o →
      lookup_op (rels.foldl (related_step rm) t).ops r =
        some (rels.foldl (op_rel_step r) o) := by
  intro rels
  induction rels with
  | nil => exact fun t o h => h
  | cons rel rest ih =>
    intro t o h
    rw [List.foldl_cons, List.foldl_cons]
    apply ih
    unfold related_step op_rel_step rel_targets
    by_cases hd : rel.download = true
    · simp only [hd, if_true, Bool.true_and]
      by_cases hr : rel.ref = r
      · subst hr
        have hbeq : (rel.ref == rel.ref) = true := by simp
        simp only [hbeq, if_true]
        rw [set_nf_lookup_self,
          add_op_lookup_merge t rm rel.ref rel.subpaths none true true o h]
        rfl
      · have hbeq : (rel.ref == r) = false := by
          simp only [beq_eq_false_iff_ne, ne_eq]
          exact hr
        simp only [hbeq, Bool.false_eq_true, if_false]
        rw [set_nf_lookup_ne _ _ _ (fun hc => hr hc.symm),
          add_op_lookup_ne t rm rel.ref r _ _ _ _ (fun hc => hr hc.symm), h]
    · simp only [hd, Bool.false_eq_true, if_false, Bool.false_and]
      exact h

theorem op_rel_fold_fields (r : String) :
    ∀ (rels : List FlatpakRelated) (o : FlatpakTransactionOp),
      (rels.foldl (op_rel_step r) o).remote = o.remote ∧
      (rels.foldl (op_rel_step r) o).ref = o.ref ∧
      (rels.foldl (op_rel_step r) o).commit = o.commit ∧
      (rels.foldl (op_rel_step r) o).install = o.install ∧
      (rels.foldl (op_rel_step r) o).update = o.update := by
  intro rels
  induction rels with
  | nil => exact fun o => ⟨rfl, rfl, rfl, rfl, rfl⟩
  | cons rel rest ih =>
    intro o
    rw [List.foldl_cons]
    have hstep : (op_rel_step r o rel).remote = o.remote ∧
        (op_rel_step r o rel).ref = o.ref ∧
        (op_rel_step r o rel).commit = o.commit ∧
        (op_rel_step r o rel).install = o.install ∧
        (op_rel_step r o rel).update = o.update := by
      unfold op_rel_step
      by_cases h1 : rel_targets r rel = true
      · obtain ⟨a1, a2, a3, a4, a5, _⟩ := op_merge_fields rel.subpaths o
        simp [h1, a1, a2, a3, a4, a5]
      · simp [h1]
    obtain ⟨a1, a2, a3, a4, a5⟩ := hstep
    obtain ⟨b1, b2, b3, b4, b5⟩ := ih (op_rel_step r o rel)
    exact ⟨b1.trans a1, b2.trans a2, b3.trans a3, b4.trans a4, b5.trans a5⟩

theorem op_rel_fold_nf (r : String) :
    ∀ (rels : List FlatpakRelated) (o : FlatpakTransactionOp),
      (rels.foldl (op_rel_step r) o).non_fatal =
        (o.non_fatal || rels.any (rel_targets r)) := by
  intro rels
  induction rels with
  | nil => intro o; simp
  | cons rel rest ih =>
    intro o
    have hstep : (op_rel_step r o rel).non_fatal =
        (o.non_fatal || rel_targets r rel) := by
      unfold op_rel_step
      by_cases h1 : rel_targets r rel = true
      · simp [h1]
      · obtain ⟨_, _, _, _, _, a6⟩ := op_merge_fields rel.subpaths o
        simp [h1]
    rw [List.foldl_cons, ih, hstep, List.any_cons]
    cases o.non_fatal <;> cases rel_targets r rel <;> simp

theorem op_rel_fold_subpaths (r : String) :
    ∀ (rels : List FlatpakRelated) (o : FlatpakTransactionOp),
      (rels.foldl (op_rel_step r) o).subpaths =
        (rel_incs r rels).foldl sub_merge_step o.subpaths := by
  intro rels
  induction rels with
  | nil => intro o; rfl
  | cons rel rest ih =>
    intro o
    rw [List.foldl_cons]
    by_cases h : rel_targets r rel = true
    · have hincs : rel_incs r (rel :: rest) = rel.subpaths :: rel_incs r rest := by
        simp [rel_incs, List.filterMap_cons, h]
      rw [hincs, List.foldl_cons, ih]
      congr 1
      unfold op_rel_step
      rw [if_pos h]
      exact op_merge_subpaths_subpaths rel.subpaths o
    · have hincs : rel_incs r (rel :: rest) = rel_incs r rest := by
        simp [rel_incs, List.filterMap_cons, h]
      rw [hincs, ih]
      congr 1
      unfold op_rel_step
      rw [if_neg h]

theorem rel_fold_keys_of_contains (rm : String) :
    ∀ (rels : List FlatpakRelated) (t : FlatpakTransaction),
      (∀ rel ∈ rels, rel.download = true →
        flatpak_transaction_contains_ref t rel.ref = true) →
      op_keys (rels.foldl (related_step rm) t) = op_keys t := by
  intro rels
  induction rels with
  | nil => exact fun t _ => rfl
  | cons rel rest ih =>
    intro t h
    have hstep_keys : op_keys (related_step rm t rel) = op_keys t := by
      unfold related_step
      by_cases hd : rel.download = true
      · simp only [hd, if_true]
        rw [set_nf_keys, add_op_keys]
        simp [h rel (List.mem_cons_self rel rest) hd]
      · simp [hd]
    have hrest : ∀ rel' ∈ rest, rel'.download = true →
        flatpak_transaction_contains_ref (related_step rm t rel) rel'.ref = true := by
      intro rel' hmem hdl
      rw [contains_iff_mem, hstep_keys]
      exact (contains_iff_mem t rel'.ref).mp (h rel' (List.mem_cons_of_mem rel hmem) hdl)
    rw [List.foldl_cons, ih (related_step rm t rel) hrest, hstep_keys]

theorem rel_fold_contains_download (rm : String) :
    ∀ (rels : List FlatpakRelated) (t : FlatpakTransaction) (rel : FlatpakRelated),
      rel ∈ rels → rel.download = true →
      flatpak_transaction_contains_ref (rels.foldl (related_step rm) t) rel.ref = true := by
  intro rels
  induction rels with
  | nil => intro t rel hmem; cases hmem
  | cons r0 rest ih =>
    intro t rel hmem hdl
    rw [List.foldl_cons]
    cases List.mem_cons.mp hmem with
    | inl heq =>
      subst heq
      obtain ⟨n, hk⟩ := rel_fold_keys rm rest (related_step rm t rel)
      apply contains_of_append_keys _ _ n hk
      unfold related_step
      simp only [hdl, if_true]
      rw [contains_iff_mem, set_nf_keys, ← contains_iff_mem]
      exact add_op_contains_self _ rm rel.ref rel.subpaths none true true
    | inr hmem' => exact ih (related_step rm t r0) rel hmem' hdl

theorem add_related_eq_fold (w : World) (t : FlatpakTransaction) (rm rf : String)
    (hflag : t.add_related = true) (rels : List FlatpakRelated)
    (hfind : (if t.no_pull then w.findLocalRelated rf rm else w.findRemoteRelated rf rm) =
      some rels) :
    add_related w t rm rf = rels.foldl (related_step rm) t := by
  unfold add_related
  rw [hflag, if_pos rfl, hfind]

theorem add_related_id_of_flag (w : World) (t : FlatpakTransaction) (rm rf : String)
    (hflag : t.add_related = false) : add_related w t rm rf = t := by
  unfold add_related
  simp [hflag]

theorem add_related_id_of_none (w : World) (t : FlatpakTransaction) (rm rf : String)
    (hflag : t.add_related = true)
    (hfind : (if t.no_pull then w.findLocalRelated rf rm else w.findRemoteRelated rf rm) =
      none) : add_related w t rm rf = t := by
  unfold add_related
  rw [hflag, if_pos rfl, hfind]

theorem add_ref_common_with_ops (w : World) (t : FlatpakTransaction) (rm ref : String)
    (sp : Option (List String)) (cm : Option String) (isu : Bool) :
    ∃ o, (add_ref_common w t rm ref sp cm isu).t = with_ops t o := by
  obtain ⟨o1, h1⟩ :
      ∃ o, (if t.add_deps then add_deps w t rm ref else (t, none)).1 = with_ops t o := by
    by_cases h : t.add_deps = true
    · rw [if_pos h]
      exact add_deps_with_ops w t rm ref
    · rw [if_neg h]
      exact ⟨t.ops, rfl⟩
  obtain ⟨o2, h2⟩ :=
    add_op_with_ops (if t.add_deps then add_deps w t rm ref else (t, none)).1 rm ref sp cm
      (!isu) isu
  obtain ⟨o3, h3⟩ :=
    add_related_with_ops w
      (flatpak_transaction_add_op (if t.add_deps then add_deps w t rm ref else (t, none)).1
        rm ref sp cm (!isu) isu).1 rm ref
  refine ⟨o3, ?_⟩
  have hres : (add_ref_common w t rm ref sp cm isu).t =
      add_related w
        (flatpak_transaction_add_op (if t.add_deps then add_deps w t rm ref else (t, none)).1
          rm ref sp cm (!isu) isu).1 rm ref := rfl
  rw [hres, h3, h2, h1, with_ops_trans, with_ops_trans]

theorem add_deps_second_id (w : World) (t t1 : FlatpakTransaction) (rm ref : String)
    (hsub : ∀ x, x ∈ op_keys (add_deps w t rm ref).1 → x ∈ op_keys t1) :
    (add_deps w t1 rm ref).1 = t1 := by
  unfold add_deps
  cases hf : transaction_fetch_runtime_ref w rm ref with
  | none => rfl
  | some rt =>
    dsimp only
    by_cases hc1 : flatpak_transaction_contains_ref t1 ("runtime/" ++ rt) = true
    · rw [if_pos hc1]
    · rw [if_neg hc1]
      have hnm1 : ("runtime/" ++ rt) ∉ op_keys t1 := by
        intro hc
        exact hc1 ((contains_iff_mem t1 _).mpr hc)
      have hct : flatpak_transaction_contains_ref t ("runtime/" ++ rt) = false := by
        cases hcv : flatpak_transaction_contains_ref t ("runtime/" ++ rt)
        · rfl
        · exfalso
          apply hnm1
          apply hsub
          obtain ⟨n, hk⟩ := add_deps_keys w t rm ref
          rw [hk]
          exact List.mem_append_right n ((contains_iff_mem t _).mp hcv)
      by_cases h2 : ref_is_installed w ("runtime/" ++ rt) = true
      · rw [if_neg (by simp [h2])]
        by_cases h3 : dir_ref_is_installed w ("runtime/" ++ rt) = true
        · have hfirst : flatpak_transaction_contains_ref (add_deps w t rm ref).1
              ("runtime/" ++ rt) = true := by
            unfold add_deps
            rw [hf]
            dsimp only
            rw [if_neg (by simp [hct]), if_neg (by simp [h2]), if_pos h3]
            dsimp only
            obtain ⟨n, hk⟩ :=
              add_related_keys w
                (flatpak_transaction_add_op t (w.origin ("runtime/" ++ rt))
                  ("runtime/" ++ rt) none none false true).1
                (w.origin ("runtime/" ++ rt)) ("runtime/" ++ rt)
            exact contains_of_append_keys _ _ n hk _
              (add_op_contains_self t _ _ none none false true)
          exact absurd (hsub _ ((contains_iff_mem _ _).mp hfirst)) hnm1
        · rw [if_neg h3]
      · have h2f : ref_is_installed w ("runtime/" ++ rt) = false := by
          simpa using h2
        rw [if_pos (by simp [h2f])]
        cases hrr :
          (if (w.searchForDependency ("runtime/" ++ rt)).isEmpty then none
           else ask_for_remote w (w.searchForDependency ("runtime/" ++ rt))) with
        | none => rfl
        | some rr =>
          dsimp only
          have hfirst : flatpak_transaction_contains_ref (add_deps w t rm ref).1
              ("runtime/" ++ rt) = true := by
            unfold add_deps
            rw [hf]
            dsimp only
            rw [if_neg (by simp [hct]), if_pos (by simp [h2f]), hrr]
            dsimp only
            obtain ⟨n, hk⟩ :=
              add_related_keys w
                (flatpak_transaction_add_op t rr ("runtime/" ++ rt) none none true
                  true).1 rr ("runtime/" ++ rt)
            exact contains_of_append_keys _ _ n hk _
              (add_op_contains_self t rr _ none none true true)
          exact absurd (hsub _ ((contains_iff_mem _ _).mp hfirst)) hnm1

theorem add_ref_common_install_idem (w : World) (t : FlatpakTransaction) (rm ref : String)
    (sp2 : Option (List String)) (hsp2 : sp2.isSome = true) :
    lookup_op (add_ref_common w (add_ref_common w t rm ref sp2 none false).t rm ref sp2
        none false).t.ops ref =
      lookup_op (add_ref_common w t rm ref sp2 none false).t.ops ref ∧
    op_keys (add_ref_common w (add_ref_common w t rm ref sp2 none false).t rm ref sp2
        none false).t =
      op_keys (add_ref_common w t rm ref sp2 none false).t := by
  set t1 := (add_ref_common w t rm ref sp2 none false).t with ht1def
  set TB := (flatpak_transaction_add_op
    (if t.add_deps then add_deps w t rm ref else (t, none)).1 rm ref sp2 none (!false)
    false).1 with hTBdef
  have hog1 : ∃ o, t1 = with_ops t o := by
    rw [ht1def]
    exact add_ref_common_with_ops w t rm ref sp2 none false
  obtain ⟨og, hog⟩ := hog1
  have hdeps1 : t1.add_deps = t.add_deps := by rw [hog]; rfl
  have hrel1 : t1.add_related = t.add_related := by rw [hog]; rfl
  have hnp1 : t1.no_pull = t.no_pull := by rw [hog]; rfl
  have hres1 : t1 = add_related w TB rm ref := by rw [ht1def, hTBdef]; rfl
  have hoA : ∃ o, (if t.add_deps then add_deps w t rm ref else (t, none)).1 = with_ops t o := by
    by_cases h : t.add_deps = true
    · rw [if_pos h]
      exact add_deps_with_ops w t rm ref
    · rw [if_neg h]
      exact ⟨t.ops, rfl⟩
  obtain ⟨oA, hoAe⟩ := hoA
  obtain ⟨oTB0, hoTB0⟩ :=
    add_op_with_ops (if t.add_deps then add_deps w t rm ref else (t, none)).1 rm ref sp2 none
      (!false) false
  have hoTBex : ∃ o, TB = with_ops t o := by
    refine ⟨oTB0, ?_⟩
    rw [hTBdef, hoTB0, hoAe, with_ops_trans]
  obtain ⟨oTB, hoTB⟩ := hoTBex
  have hTBrel : TB.add_related = t.add_related := by rw [hoTB]; rfl
  have hTBnp : TB.no_pull = t.no_pull := by rw [hoTB]; rfl
  obtain ⟨oTB2, hoTB2⟩ := add_op_with_ops t1 rm ref sp2 none (!false) false
  have hTB2rel : (flatpak_transaction_add_op t1 rm ref sp2 none (!false)
      false).1.add_related = t.add_related := by
    rw [hoTB2]
    exact hrel1
  have hTB2np : (flatpak_transaction_add_op t1 rm ref sp2 none (!false)
      false).1.no_pull = t.no_pull := by
    rw [hoTB2]
    exact hnp1
  -- the second dependency pass does nothing
  have hA2 : (if t1.add_deps then add_deps w t1 rm ref else (t1, none)).1 = t1 := by
    by_cases hd : t.add_deps = true
    · rw [hdeps1, if_pos hd]
      apply add_deps_second_id w t t1 rm ref
      intro x hx
      have hxA1 : x ∈ op_keys (if t.add_deps then add_deps w t rm ref else (t, none)).1 := by
        rw [if_pos hd]
        exact hx
      have hxTB : x ∈ op_keys TB := by
        rw [hTBdef, add_op_keys]
        by_cases hcA : flatpak_transaction_contains_ref
            (if t.add_deps then add_deps w t rm ref else (t, none)).1 ref = true
        · rw [if_pos hcA]
          exact hxA1
        · rw [if_neg hcA]
          exact List.mem_cons_of_mem _ hxA1
      obtain ⟨n, hk⟩ := add_related_keys w TB rm ref
      have hkeys1 : op_keys t1 = n ++ op_keys TB := by
        rw [hres1]
        exact hk
      rw [hkeys1]
      exact List.mem_append_right n hxTB
    · rw [hdeps1, if_neg hd]
  have hres2 : (add_ref_common w t1 rm ref sp2 none false).t =
      add_related w (flatpak_transaction_add_op t1 rm ref sp2 none (!false) false).1
        rm ref := by
    have h0 : (add_ref_common w t1 rm ref sp2 none false).t =
        add_related w
          (flatpak_transaction_add_op
            (if t1.add_deps then add_deps w t1 rm ref else (t1, none)).1 rm ref sp2 none
            (!false) false).1 rm ref := rfl
    rw [h0, hA2]
  -- the op recorded for ref by the first call's add_op
  obtain ⟨op_b, hop_b, hu⟩ :
      ∃ o, lookup_op TB.ops ref = some o ∧
        (o.subpaths = sp2 ∨ subpaths_restricted o.subpaths = false) := by
    rw [hTBdef]
    cases hA : lookup_op ((if t.add_deps then add_deps w t rm ref else (t, none)).1).ops ref
      with
    | none => exact ⟨_, add_op_lookup_fresh _ rm ref sp2 none (!false) false hA, Or.inl rfl⟩
    | some opA =>
      refine ⟨_, add_op_lookup_merge _ rm ref sp2 none (!false) false opA hA, ?_⟩
      unfold op_merge_subpaths
      by_cases hc : (subpaths_restricted opA.subpaths && sp2.isSome) = true
      · rw [if_pos hc]
        exact Or.inl rfl
      · rw [if_neg hc]
        right
        cases hrs : subpaths_restricted opA.subpaths
        · rfl
        · exact absurd (by rw [hrs, hsp2]; rfl) hc
  have hcont_t1 : flatpak_transaction_contains_ref t1 ref = true := by
    rw [hres1]
    obtain ⟨n, hk⟩ := add_related_keys w TB rm ref
    apply contains_of_append_keys _ _ n hk
    rw [hTBdef]
    exact add_op_contains_self _ rm ref sp2 none (!false) false
  have hTB2keys : op_keys (flatpak_transaction_add_op t1 rm ref sp2 none (!false)
      false).1 = op_keys t1 := by
    rw [add_op_keys]
    simp [hcont_t1]
  -- both related passes fold the same candidate list (possibly empty)
  have hrels : ∃ rels : List FlatpakRelated,
      add_related w TB rm ref = rels.foldl (related_step rm) TB ∧
      add_related w (flatpak_transaction_add_op t1 rm ref sp2 none (!false) false).1 rm
          ref =
        rels.foldl (related_step rm)
          (flatpak_transaction_add_op t1 rm ref sp2 none (!false) false).1 := by
    by_cases hrflag : t.add_related = true
    · cases hfind :
        (if t.no_pull then w.findLocalRelated ref rm else w.findRemoteRelated ref rm) with
      | none =>
        refine ⟨[], ?_, ?_⟩
        · exact add_related_id_of_none w TB rm ref (hTBrel.trans hrflag)
            (by rw [hTBnp]; exact hfind)
        · exact add_related_id_of_none w _ rm ref (hTB2rel.trans hrflag)
            (by rw [hTB2np]; exact hfind)
      | some rels =>
        refine ⟨rels, ?_, ?_⟩
        · exact add_related_eq_fold w TB rm ref (hTBrel.trans hrflag) rels
            (by rw [hTBnp]; exact hfind)
        · exact add_related_eq_fold w _ rm ref (hTB2rel.trans hrflag) rels
            (by rw [hTB2np]; exact hfind)
    · have hrflag' : t.add_related = false := by simpa using hrflag
      exact ⟨[], add_related_id_of_flag w TB rm ref (hTBrel.trans hrflag'),
        add_related_id_of_flag w _ rm ref (hTB2rel.trans hrflag')⟩
  obtain ⟨rels, hrel_eq1, hrel_eq2⟩ := hrels
  have ht1fold : t1 = rels.foldl (related_step rm) TB := hres1.trans hrel_eq1
  have hcontTB2 : ∀ rel ∈ rels, rel.download = true →
      flatpak_transaction_contains_ref
        (flatpak_transaction_add_op t1 rm ref sp2 none (!false) false).1 rel.ref = true := by
    intro rel hm hd
    have hf1 := rel_fold_contains_download rm rels TB rel hm hd
    rw [← ht1fold] at hf1
    rw [contains_iff_mem, hTB2keys]
    exact (contains_iff_mem t1 _).mp hf1
  constructor
  · -- the op stored for ref is unchanged
    rw [hres2, hrel_eq2]
    have hlook_t1 : lookup_op t1.ops ref = some (rels.foldl (op_rel_step ref) op_b) := by
      rw [ht1fold]
      exact rel_fold_lookup_some rm ref rels TB op_b hop_b
    have hlookTB2 : lookup_op (flatpak_transaction_add_op t1 rm ref sp2 none (!false)
        false).1.ops ref =
        some (op_merge_subpaths sp2 (rels.foldl (op_rel_step ref) op_b)) :=
      add_op_lookup_merge t1 rm ref sp2 none (!false) false _ hlook_t1
    have hlook2 := rel_fold_lookup_some rm ref rels _ _ hlookTB2
    rw [hlook2, hlook_t1]
    congr 1
    obtain ⟨f1, f2, f3, f4, f5⟩ :=
      op_rel_fold_fields ref rels
        (op_merge_subpaths sp2 (rels.foldl (op_rel_step ref) op_b))
    obtain ⟨m1, m2, m3, m4, m5, m6⟩ :=
      op_merge_fields sp2 (rels.foldl (op_rel_step ref) op_b)
    apply op_eq_of_fields
    · exact f1.trans m1
    · exact f2.trans m2
    · rw [op_rel_fold_subpaths, op_merge_subpaths_subpaths, op_rel_fold_subpaths]
      exact sub_fold_merge_idem (rel_incs ref rels) sp2 hsp2 op_b.subpaths hu
    · exact f3.trans m3
    · exact f5.trans m5
    · exact f4.trans m4
    · rw [op_rel_fold_nf, m6, op_rel_fold_nf]
      cases op_b.non_fatal <;> cases rels.any (rel_targets ref) <;> rfl
  · -- no op is added or removed
    rw [hres2, hrel_eq2, rel_fold_keys_of_contains rm rels _ hcontTB2, hTB2keys]

/-- C8: submitting the same install request twice (same remote, ref,
subpaths) to a transaction whose deploy store does not contain the ref is
idempotent.  The second call succeeds (returns TRUE); its add_op merges into
the already-stored op rather than inserting (the key list is unchanged, so
no new op is recorded and the executor would visit the same single op); and
the stored op for the ref ends with exactly the same fields (remote, ref,
subpaths, commit, install, update, non_fatal) as after the first call. -/
theorem c8_install_idempotent (w : World) (t : FlatpakTransaction) (rm ref : String)
    (sp : Option (List String)) (hdep : w.deployed ref = false) :
    (flatpak_transaction_add_install w (flatpak_transaction_add_install w t rm ref sp).t
        rm ref sp).ok = true ∧
    lookup_op (flatpak_transaction_add_install w
        (flatpak_transaction_add_install w t rm ref sp).t rm ref sp).t.ops ref =
      lookup_op (flatpak_transaction_add_install w t rm ref sp).t.ops ref ∧
    op_keys (flatpak_transaction_add_install w
        (flatpak_transaction_add_install w t rm ref sp).t rm ref sp).t =
      op_keys (flatpak_transaction_add_install w t rm ref sp).t := by
  cases sp with
  | none =>
    have hred : ∀ t' : FlatpakTransaction,
        flatpak_transaction_add_install w t' rm ref none =
          add_ref_common w t' rm ref (some []) none false := by
      intro t'
      simp [flatpak_transaction_add_install, flatpak_transaction_add_ref,
        dir_ref_is_installed, hdep]
    obtain ⟨hl, hk⟩ := add_ref_common_install_idem w t rm ref (some []) rfl
    simp only [hred]
    exact ⟨rfl, hl, hk⟩
  | some l =>
    have hred : ∀ t' : FlatpakTransaction,
        flatpak_transaction_add_install w t' rm ref (some l) =
          add_ref_common w t' rm ref (some l) none false := by
      intro t'
      simp [flatpak_transaction_add_install, flatpak_transaction_add_ref,
        dir_ref_is_installed, hdep]
    obtain ⟨hl, hk⟩ := add_ref_common_install_idem w t rm ref (some l) rfl
    simp only [hred]
    exact ⟨rfl, hl, hk⟩

theorem c8_witness :
    (flatpak_transaction_add_install wBase
        (flatpak_transaction_add_install wBase t_plain "origin" "app/X" none).t
        "origin" "app/X" none).ok = true ∧
    lookup_op (flatpak_transaction_add_install wBase
        (flatpak_transaction_add_install wBase t_plain "origin" "app/X" none).t
        "origin" "app/X" none).t.ops "app/X" =
      lookup_op (flatpak_transaction_add_install wBase t_plain "origin" "app/X"
        none).t.ops "app/X" ∧
    op_keys (flatpak_transaction_add_install wBase
        (flatpak_transaction_add_install wBase t_plain "origin" "app/X" none).t
        "origin" "app/X" none).t =
      op_keys (flatpak_transaction_add_install wBase t_plain "origin" "app/X" none).t :=
  c8_install_idempotent wBase t_plain "origin" "app/X" none rfl
